import Mathlib

/-!
Verification development for the persistent multi-agent orchestration engine
(`src/orchestrator/*.py`).  The Python modules are shallowly embedded:

* `types.py`   → `State`, `TaskPacket`, `RunContext`
* `config.py`  → the workflow/LLM/tool constants and the shell allow/deny lists
* `tools.py`   → `PersistentTools` (path containment, allowlist, patch
  validation/application, snapshots, shell command gating)
* `llm.py`     → `parse_single_json_object`, `validate_schema`, `chat_json`
* `state.py`   → `StateManager.save_context` / `load_context`
* `core.py`    → `PersistentOrchestrator.run` as a step function plus a fuelled
  run loop; agent/LLM/filesystem interactions are abstracted into an
  environment oracle that supplies each phase's outcome, faithful to the
  branch structure of the source.

JSON values are modelled by the inductive `Json`; Python dicts are association
lists whose keys are kept unique (mirroring dict insertion semantics), so the
first-match lookup `jGet` agrees with Python's `dict.get`.
-/

/-- JSON values as produced by `json.loads`.  Numbers are modelled as integers:
every numeric literal handled by the engine's structured artifacts is integral. -/
inductive Json where
  | null : Json
  | bool (b : Bool) : Json
  | str (s : String) : Json
  | num (n : Int) : Json
  | arr (xs : List Json) : Json
  | obj (kvs : List (String × Json)) : Json

/-- Python `x == "lit"` for a JSON value `x` and a string literal: true exactly
when `x` is that string.  Every equality comparison the engine performs on
artifact fields is against a string literal. -/
def jEqStr : Json → String → Bool
  | Json.str t, s => t == s
  | _, _ => false

/-- Python `dict.get`: first (unique) binding of a key in an object; `none`
for a missing key or a non-object. -/
def jGet (v : Json) (key : String) : Option Json :=
  match v with
  | Json.obj kvs => (kvs.find? (fun kv => kv.1 == key)).map (·.2)
  | _ => none

/-- Python truthiness of a JSON value (`bool(x)`). -/
def pyTruthy : Json → Bool
  | Json.null => false
  | Json.bool b => b
  | Json.str s => s ≠ ""
  | Json.num n => n ≠ 0
  | Json.arr xs => ¬ xs.isEmpty
  | Json.obj kvs => ¬ kvs.isEmpty

/-- Truthiness of `d.get(k)` where a missing key gives Python `None` (falsy). -/
def pyTruthyOpt : Option Json → Bool
  | none => false
  | some v => pyTruthy v

/-- Workflow states (`types.py`, `class State(Enum)`). -/
inductive State where
  | SPEC | SPEC_REVIEW | SPEC_REPAIR | PLAN | PATCH | PATCH_REVIEW
  | APPLY | TEST | REPAIR_PATCH | DONE | FAILED
deriving Repr, DecidableEq, Inhabited

/-- `State.name` of the Python enum member. -/
def State.name : State → String
  | .SPEC => "SPEC"
  | .SPEC_REVIEW => "SPEC_REVIEW"
  | .SPEC_REPAIR => "SPEC_REPAIR"
  | .PLAN => "PLAN"
  | .PATCH => "PATCH"
  | .PATCH_REVIEW => "PATCH_REVIEW"
  | .APPLY => "APPLY"
  | .TEST => "TEST"
  | .REPAIR_PATCH => "REPAIR_PATCH"
  | .DONE => "DONE"
  | .FAILED => "FAILED"

/-- `State[name]` lookup; `none` models the `KeyError` on an unknown name. -/
def State.ofName (s : String) : Option State :=
  if s = "SPEC" then some .SPEC
  else if s = "SPEC_REVIEW" then some .SPEC_REVIEW
  else if s = "SPEC_REPAIR" then some .SPEC_REPAIR
  else if s = "PLAN" then some .PLAN
  else if s = "PATCH" then some .PATCH
  else if s = "PATCH_REVIEW" then some .PATCH_REVIEW
  else if s = "APPLY" then some .APPLY
  else if s = "TEST" then some .TEST
  else if s = "REPAIR_PATCH" then some .REPAIR_PATCH
  else if s = "DONE" then some .DONE
  else if s = "FAILED" then some .FAILED
  else none

/-- `types.py` `TaskPacket` (immutable task description). -/
structure TaskPacket where
  objective : String
  workspace_dir : String := "."
  files_allowed : List String := []
  task_id : String := "task_0"
deriving Repr, DecidableEq, Inhabited

/-- `types.py` `RunContext` (the mutable aggregate owned by the engine). -/
structure RunContext where
  packet : TaskPacket
  frozen_spec : Option Json := none
  plan : Option Json := none
  patches : List Json := []
  test_reports : List Json := []
  spec_review : Option Json := none
  patch_review : Option Json := none
  latest_research_report : Option String := none
  current_state : State := State.SPEC
  iteration_count : Nat := 0

/-! ## Configuration constants (`config.py`) -/

def ALLOWED_TYPES : List String :=
  ["SPECIFICATION", "PLAN", "PATCH", "TEST_REPORT", "REVIEW", "QUESTION", "COMMAND"]

def ALLOWED_COMMANDS : List String :=
  ["ls", "cat", "curl", "python", "python3", "pip", "pip3", "git", "grep",
   "tail", "head", "wc", "find", "sqlite3", "node", "npm", "echo", "pwd",
   "mkdir", "rm", "cp", "mv", "touch"]

def LLM_RETRIES : Nat := 3

def MAX_FILE_READ_BYTES : Nat := 50000

def MAX_FILE_LIST_LIMIT : Nat := 300

def MAX_REPAIRS : Nat := 3

def MAX_SPEC_REPAIRS : Nat := 2

/-- `str.startswith` / `str.endswith` on the character lists. -/
def strStartsWith (s pre : String) : Bool :=
  pre.data.isPrefixOf s.data

def strEndsWith (s suf : String) : Bool :=
  suf.data.reverse.isPrefixOf s.data.reverse

/-! ## ToolSandbox (`tools.py`, `PersistentTools`)

Filesystem paths are modelled as lists of path segments.  An absolute path is
the list of segments from the filesystem root; the workspace root is given as
such a (normalized) list.  A workspace-relative path is a plain string that is
split on the separator; `os.path.abspath(os.path.join(ws, rel))` is modelled
by `normJoin`, which drops empty and `.` segments and resolves `..` by popping
(clamping at the filesystem root, as `abspath` does). -/

/-- Split a workspace-relative path string into raw segments
(`"a/b".split("/")`-style; empty segments are kept and dropped later by
normalization, as `abspath` does). -/
def splitPath (rel : String) : List String :=
  (rel.data.foldr
    (fun c acc =>
      if c == '/' then [] :: acc
      else match acc with
        | [] => [[c]]
        | t :: ts => (c :: t) :: ts)
    [[]]).map String.mk

/-- One step of path normalization over an absolute segment stack. -/
def normStep (stack : List String) (seg : String) : List String :=
  if seg = "" ∨ seg = "." then stack
  else if seg = ".." then stack.dropLast
  else stack ++ [seg]

/-- `os.path.abspath(os.path.join(base, rel))` on segment lists: fold the raw
segments of `rel` over the absolute base. -/
def normJoin (base : List String) (segs : List String) : List String :=
  segs.foldl normStep base

/-- `PersistentTools` instance data: absolute workspace root (normalized
segments), the task's allowlist, and the acting agent's name. -/
structure ToolsCtx where
  workspace : List String
  files_allowed : List String
  agent_name : String

/-- A pre-overwrite snapshot recorded by `StateManager.save_file_snapshot`
(timestamp and task id elided; they never influence control flow). -/
structure Snapshot where
  file_path : String
  content : String
  agent : String

/-- The mutable world a `PersistentTools` instance acts on: the filesystem (a
map from absolute path to content), the append-only snapshot changelog, and
the instance's `files_accessed` / `files_modified` tracking sets. -/
structure Store where
  fs : List (List String × String)
  snapshots : List Snapshot
  files_accessed : List String
  files_modified : List String

/-- Look up the content of an absolute path. -/
def fsLookup (fs : List (List String × String)) (p : List String) : Option String :=
  (fs.find? (fun e => e.1 == p)).map (·.2)

/-- Write content at an absolute path (overwriting any previous entry). -/
def fsWrite (fs : List (List String × String)) (p : List String) (c : String) :
    List (List String × String) :=
  (fs.filter (fun e => ¬ (e.1 == p))) ++ [(p, c)]

/-- `PersistentTools._abs`: resolve a workspace-relative path and reject any
resolution that escapes the workspace root (the source checks
`p.startswith(ws + os.sep) or p == ws`, which on segment lists is exactly the
prefix test). -/
def toolsAbs (t : ToolsCtx) (rel : String) : Except String (List String) :=
  let p := normJoin t.workspace (splitPath rel)
  if t.workspace.isPrefixOf p then Except.ok p
  else Except.error "path escape blocked"

/-- `PersistentTools._check_allowed`: with a non-empty allowlist, reject any
relative path outside it.  (The `main.py` guard in the source is commented
out, so no entry-point check is performed.) -/
def checkAllowed (t : ToolsCtx) (rel : String) : Except String Unit :=
  if ¬ t.files_allowed.isEmpty ∧ rel ∉ t.files_allowed then
    Except.error ("file not allowed: " ++ rel)
  else Except.ok ()

/-- Relative path of an absolute path under the workspace root, if any
(`os.path.relpath` for files enumerated by `os.walk(workspace)`). -/
def relUnder (ws : List String) (p : List String) : Option String :=
  if ws.isPrefixOf p then some (String.intercalate "/" (p.drop ws.length))
  else none

/-- Insertion sort by `≤` on strings (Python's `list.sort()` is a stable
lexicographic sort; any sort into nondecreasing order is equivalent here). -/
def insertLe (x : String) : List String → List String
  | [] => [x]
  | y :: ys => if x ≤ y then x :: y :: ys else y :: insertLe x ys

def sortLe (xs : List String) : List String :=
  xs.foldr insertLe []

/-- `PersistentTools.list_files`: walk the workspace, skip anything under the
`.agent_state` state directory, sort, and truncate to `limit`.  (The `main.py`
skip in the source is commented out.) -/
def list_files (t : ToolsCtx) (st : Store) (limit : Nat := MAX_FILE_LIST_LIMIT) :
    List String :=
  let rel := st.fs.filterMap (fun e => relUnder t.workspace e.1)
  let rel := rel.filter (fun rp => ¬ strStartsWith rp ".agent_state")
  (sortLe rel).take limit

/-- `PersistentTools.file_exists`. -/
def file_exists (t : ToolsCtx) (st : Store) (rel : String) : Except String Bool := do
  let ap ← toolsAbs t rel
  return (fsLookup st.fs ap).isSome

/-- `PersistentTools.read_text` (byte cap modelled on characters; binary decode
details do not influence control flow). -/
def read_text (t : ToolsCtx) (st : Store) (rel : String)
    (max_bytes : Nat := MAX_FILE_READ_BYTES) : Except String (String × Store) := do
  let _ ← checkAllowed t rel
  let ap ← toolsAbs t rel
  let st := { st with files_accessed := st.files_accessed ++ [rel] }
  match fsLookup st.fs ap with
  | none => Except.error ("File not found: " ++ rel)
  | some content =>
      if content.length > max_bytes then
        return ((content.take max_bytes) ++ "\n...TRUNCATED...", st)
      else
        return (content, st)

/-- `PersistentTools.write_text`: allowlist check, containment check, tracking,
pre-overwrite snapshot (when the target exists), then the write. -/
def write_text (t : ToolsCtx) (st : Store) (rel : String) (content : String)
    (create_backup : Bool := true) : Except String Store := do
  let _ ← checkAllowed t rel
  let ap ← toolsAbs t rel
  let st := { st with files_modified := st.files_modified ++ [rel] }
  let st :=
    match create_backup, fsLookup st.fs ap with
    | true, some old =>
        { st with snapshots := st.snapshots ++ [Snapshot.mk rel old t.agent_name] }
    | _, _ => st
  return { st with fs := fsWrite st.fs ap content }

/-- `PersistentTools.append_text`: read any existing content directly, then
delegate to `write_text` (which re-checks and snapshots). -/
def append_text (t : ToolsCtx) (st : Store) (rel : String) (content : String) :
    Except String Store := do
  let _ ← checkAllowed t rel
  let ap ← toolsAbs t rel
  let existing := (fsLookup st.fs ap).getD ""
  write_text t st rel (existing ++ content) true

/-- `PersistentTools.copy_file`: allowlist checks on both ends, containment on
both ends, source existence, destination snapshot, copy, tracking. -/
def copy_file (t : ToolsCtx) (st : Store) (src_rel dest_rel : String) :
    Except String Store := do
  let _ ← checkAllowed t src_rel
  let _ ← checkAllowed t dest_rel
  let src_abs ← toolsAbs t src_rel
  let dest_abs ← toolsAbs t dest_rel
  match fsLookup st.fs src_abs with
  | none => Except.error ("Source file not found: " ++ src_rel)
  | some srcContent =>
      let st :=
        match fsLookup st.fs dest_abs with
        | some old =>
            { st with snapshots := st.snapshots ++ [Snapshot.mk dest_rel old t.agent_name] }
        | none => st
      let st := { st with fs := fsWrite st.fs dest_abs srcContent }
      return { st with files_modified := st.files_modified ++ [dest_rel] }

/-- Python `item.get("action") != "write"` (a missing key gives `None`, which
is not equal to the literal). -/
def actionIsWrite (action : Option Json) : Bool :=
  match action with
  | some a => jEqStr a "write"
  | none => false

/-- Structural check of one PATCH file entry plus the allowlist policy check,
returning the violation message the source produces (`_check_allowed`'s
exception is caught at the top of `validate_patch` and wrapped). -/
def patchEntryViolation (t : ToolsCtx) (item : Json) : Option String :=
  match item with
  | Json.obj _ =>
      let path := jGet item "path"
      let action := jGet item "action"
      let content := jGet item "content"
      match path with
      | some (Json.str p) =>
          if p = "" then some "PATCH file entry missing path"
          else if actionIsWrite action = false then
            some "PATCH supports only action=write"
          else
            match content with
            | some (Json.str _) =>
                match checkAllowed t p with
                | Except.ok _ => none
                | Except.error e => some ("Validation Error: " ++ e)
            | _ => some "PATCH content must be string"
      | _ => some "PATCH file entry missing path"
  | _ => some "PATCH file entry must be object"

/-- First violation among a list of PATCH file entries. -/
def firstPatchViolation (t : ToolsCtx) : List Json → Option String
  | [] => none
  | item :: rest =>
      match patchEntryViolation t item with
      | some v => some v
      | none => firstPatchViolation t rest

/-- `PersistentTools.validate_patch`: a pure check of the PATCH payload's
structural shape and allowlist policy, reporting the first violation found or
`none`.  The payload is a dict (the source's type annotation). -/
def validate_patch (t : ToolsCtx) (patch : List (String × Json)) : Option String :=
  match jGet (Json.obj patch) "files" with
  | some (Json.arr files) => firstPatchViolation t files
  | _ => some "PATCH missing files[]"

/-- The claim's well-formedness condition on one PATCH file entry: an object
with a non-empty string path, action exactly "write", string content, and a
path inside the allowlist whenever one is configured. -/
def goodPatchEntry (t : ToolsCtx) (item : Json) : Prop :=
  ∃ kvs p c, item = Json.obj kvs ∧
    jGet item "path" = some (Json.str p) ∧ p ≠ "" ∧
    jGet item "action" = some (Json.str "write") ∧
    jGet item "content" = some (Json.str c) ∧
    (t.files_allowed = [] ∨ p ∈ t.files_allowed)

/-- Per-entry application step of `PersistentTools.apply_patch` (raises on the
same structural violations, then writes through `write_text`). -/
def applyPatchEntry (t : ToolsCtx) (st : Store) (item : Json) :
    Except String Store :=
  match item with
  | Json.obj _ =>
      match jGet item "path" with
      | some (Json.str p) =>
          if p = "" then Except.error "PATCH file entry missing path"
          else if actionIsWrite (jGet item "action") = false then
            Except.error "PATCH supports only action=write in this minimal version"
          else
            match jGet item "content" with
            | some (Json.str c) => write_text t st p c
            | _ => Except.error "PATCH content must be string"
      | _ => Except.error "PATCH file entry missing path"
  | _ => Except.error "PATCH file entry must be object"

/-- Sequential application of the PATCH file entries. -/
def applyPatchFiles (t : ToolsCtx) (st : Store) : List Json → Except String Store
  | [] => Except.ok st
  | item :: rest => do
      let st ← applyPatchEntry t st item
      applyPatchFiles t st rest

/-- `PersistentTools.apply_patch`: validate and write each file in order;
a violation raises and later entries are not applied. -/
def apply_patch (t : ToolsCtx) (st : Store) (patch : List (String × Json)) :
    Except String Store :=
  match jGet (Json.obj patch) "files" with
  | some (Json.arr files) => applyPatchFiles t st files
  | _ => Except.error "PATCH missing files[]"

/-! ## Shell command gating (`tools.py` `run_shell`, `config.py` lists)

The denylist regexes use only literals and `\s+`, so they are embedded as a
tiny pattern language with exact `re.search` semantics (match at any start
position; `\s+` consumes one or more whitespace characters). -/

/-- Python regex `\s`: space, tab, newline, carriage return, vertical tab,
form feed. -/
def pyIsSpace (c : Char) : Bool :=
  c == ' ' || c == '\t' || c == '\n' || c == '\r' || c == '\x0b' || c == '\x0c'

/-- Denylist pattern atoms: a literal, or `\s+`. -/
inductive Pat where
  | lit (s : String)
  | ws1

/-- Match a pattern sequence at the head of the character list.  The fuel is
an upper bound on the recursion depth; every recursive call shrinks
`ps.length + cs.length`, so `ps.length + cs.length + 1` fuel is exact. -/
def matchHere : Nat → List Pat → List Char → Bool
  | 0, _, _ => false
  | _ + 1, [], _ => true
  | fuel + 1, Pat.lit s :: ps, cs =>
      s.data.isPrefixOf cs && matchHere fuel ps (cs.drop s.length)
  | _ + 1, Pat.ws1 :: _, [] => false
  | fuel + 1, Pat.ws1 :: ps, c :: cs =>
      pyIsSpace c && (matchHere fuel ps cs || matchHere fuel (Pat.ws1 :: ps) cs)

/-- Match a pattern sequence at the head of the list (with exact fuel). -/
def matchPat (ps : List Pat) (cs : List Char) : Bool :=
  matchHere (ps.length + cs.length + 1) ps cs

/-- `re.search`: match the pattern at some start position. -/
def searchPat (ps : List Pat) : List Char → Bool
  | [] => matchPat ps []
  | c :: cs => matchPat ps (c :: cs) || searchPat ps cs

/-- `config.py` `BLACKLIST_PATTERNS`, each paired with its matcher. -/
def BLACKLIST_PATTERNS : List (String × List Pat) :=
  [("rm\\s+-rf\\s+/", [Pat.lit "rm", Pat.ws1, Pat.lit "-rf", Pat.ws1, Pat.lit "/"]),
   ("sudo", [Pat.lit "sudo"]),
   (">\\s+/dev/sd", [Pat.lit ">", Pat.ws1, Pat.lit "/dev/sd"]),
   ("mkfs", [Pat.lit "mkfs"]),
   ("dd\\s+if=", [Pat.lit "dd", Pat.ws1, Pat.lit "if="])]

/-- Python `str.strip()` on a character list. -/
def pyStripChars (cs : List Char) : List Char :=
  ((cs.dropWhile pyIsSpace).reverse.dropWhile pyIsSpace).reverse

/-- Python `str.split()` (no argument): split on whitespace runs, dropping
empty tokens. -/
def pySplitWs (cs : List Char) : List String :=
  let grouped := cs.foldr
    (fun c acc =>
      if pyIsSpace c then [] :: acc
      else match acc with
        | [] => [[c]]
        | t :: ts => (c :: t) :: ts)
    ([] : List (List Char))
  (grouped.filter (fun t => ¬ t.isEmpty)).map String.mk

/-- `re.search(r"(^|\s)&\s*$", command.strip())`: on an already-stripped
string this holds exactly when the last character is `&` standing alone or
preceded by whitespace. -/
def isBackgroundLaunch (stripped : List Char) : Bool :=
  match stripped.reverse with
  | [] => false
  | c :: rest =>
      c == '&' && (rest.isEmpty || pyIsSpace (rest.headD ' '))

/-- The decision `run_shell` reaches before any process could be spawned.
Only the two `execute*` outcomes reach `subprocess`; every other constructor
is an early `return` of an error string. -/
inductive ShellDecision where
  | blocked (pattern : String)
  | emptyCommand
  | notAllowed (base : String)
  | executeBackground
  | executeForeground
deriving Repr, DecidableEq

/-- `PersistentTools.run_shell`, up to the point a subprocess would be
spawned: denylist first, then the leading-token allowlist (with the local
script exception), then background detection. -/
def run_shell_decision (command : String) : ShellDecision :=
  match BLACKLIST_PATTERNS.find? (fun pr => searchPat pr.2 command.data) with
  | some pr => ShellDecision.blocked pr.1
  | none =>
      match pySplitWs (pyStripChars command.data) with
      | [] => ShellDecision.emptyCommand
      | base :: _ =>
          let is_local_script :=
            strStartsWith base "./" || strEndsWith base ".py" || strEndsWith base ".sh"
          if (ALLOWED_COMMANDS.contains base || is_local_script) = false then
            ShellDecision.notAllowed base
          else if isBackgroundLaunch (pyStripChars command.data) then
            ShellDecision.executeBackground
          else
            ShellDecision.executeForeground

/-! ## ResponseContract (`llm.py`)

The extraction pipeline of `parse_single_json_object` works on character
lists.  The three regexes it uses (`<think>...</think>` removal, the
command-delimiter pair, the fenced code block) are embedded with exact
leftmost / lazy-quantifier semantics for their shapes. -/

/-- Brace characters, constructed by code point. -/
def openBraceChar : Char := Char.ofNat 123

def closeBraceChar : Char := Char.ofNat 125

/-- First index at which `pat` occurs as a sublist. -/
def findSub (pat : List Char) : List Char → Option Nat
  | [] => if pat.isEmpty then some 0 else none
  | c :: cs =>
      if pat.isPrefixOf (c :: cs) then some 0
      else (findSub pat cs).map (· + 1)

/-- `re.sub(r"<think>[\s\S]*?</think>", "", text)`: repeatedly delete the span
from each `<think>` to the earliest following `</think>`; an occurrence with
no closing marker is left untouched (no match can start at or after it). -/
def removeThinkAux : Nat → List Char → List Char
  | 0, cs => cs
  | fuel + 1, cs =>
      match findSub "<think>".data cs with
      | none => cs
      | some i =>
          let after := cs.drop (i + 7)
          match findSub "</think>".data after with
          | none => cs
          | some j => cs.take i ++ removeThinkAux fuel (after.drop (j + 8))

def removeThink (cs : List Char) : List Char :=
  removeThinkAux cs.length cs

/-- `re.search(r"@@@COMMAND_START@@@\s*(.*?)\s*@@@COMMAND_END@@@", text,
re.DOTALL)`: the interior between the first start marker and the earliest
subsequent end marker, with surrounding whitespace stripped (the greedy
`\s*` / lazy `(.*?)` pair strips exactly that). -/
def commandExtract (cs : List Char) : Option (List Char) :=
  match findSub "@@@COMMAND_START@@@".data cs with
  | none => none
  | some i =>
      let after := cs.drop (i + 19)
      match findSub "@@@COMMAND_END@@@".data after with
      | none => none
      | some j => some (pyStripChars (after.take j))

/-- Case-insensitive literal prefix test (for the `re.IGNORECASE` fence). -/
def ciPrefix (pat : List Char) (cs : List Char) : Bool :=
  (pat.map Char.toLower).isPrefixOf (cs.map Char.toLower)

/-- Lazy body of the fenced-block group: collect characters until the first
closing brace that is followed by (maximal) whitespace and a closing fence. -/
def fenceBody (acc : List Char) : List Char → Option (List Char)
  | [] => none
  | c :: cs =>
      if c == closeBraceChar && "```".data.isPrefixOf (cs.dropWhile pyIsSpace) then
        some (acc ++ [c])
      else fenceBody (acc ++ [c]) cs

/-- Try to match ```` ```(?:json)?\s*(\{[\s\S]*?\})\s*``` ```` at the head of
the list, returning the parenthesised group. -/
def fencedAt (cs : List Char) : Option (List Char) :=
  if "```".data.isPrefixOf cs then
    let rest := cs.drop 3
    let rest := if ciPrefix "json".data rest then rest.drop 4 else rest
    let rest := rest.dropWhile pyIsSpace
    match rest with
    | c :: body =>
        if c == openBraceChar then fenceBody [c] body else none
    | [] => none
  else none

/-- Leftmost match of the fenced-block pattern. -/
def fencedSearch : List Char → Option (List Char)
  | [] => none
  | c :: cs =>
      match fencedAt (c :: cs) with
      | some g => some g
      | none => fencedSearch cs

/-- `text.find("{")` / `text.rfind("}")` slice: keep the substring from the
first opening brace to the last closing brace when both exist in that order;
otherwise leave the text unchanged. -/
def braceSlice (cs : List Char) : List Char :=
  match cs.findIdx? (· == openBraceChar),
        cs.reverse.findIdx? (· == closeBraceChar) with
  | some s, some rrev =>
      let e := cs.length - 1 - rrev
      if s < e then (cs.take (e + 1)).drop s else cs
  | _, _ => cs

/-! ### A small JSON parser (`json.loads`)

Fuel-indexed recursive descent.  JSON whitespace is space/tab/LF/CR.  Object
keys follow dict insertion semantics: a duplicate key replaces the earlier
binding.  Numeric literals are modelled as integers; fractional or exponent
forms are outside the model (no engine artifact contains them) and fail. -/

def jsonWs (c : Char) : Bool :=
  c == ' ' || c == '\t' || c == '\n' || c == '\r'

def skipJsonWs (cs : List Char) : List Char :=
  cs.dropWhile jsonWs

/-- Hexadecimal digit test. -/
def isHexDigitChar (c : Char) : Bool :=
  c.isDigit || ('a' ≤ c && c ≤ 'f') || ('A' ≤ c && c ≤ 'F')

/-- Value of a hexadecimal digit. -/
def hexVal (c : Char) : Nat :=
  if c.isDigit then c.toNat - 48
  else if 'a' ≤ c ∧ c ≤ 'f' then c.toNat - 87
  else if 'A' ≤ c ∧ c ≤ 'F' then c.toNat - 55
  else 0

/-- Parse the body of a JSON string (after the opening quote), handling the
standard escapes. -/
def parseJStr : Nat → List Char → Option (List Char × List Char)
  | 0, _ => none
  | _, [] => none
  | fuel + 1, c :: cs =>
      if c == '"' then some ([], cs)
      else if c == '\\' then
        match cs with
        | [] => none
        | e :: cs2 =>
            let esc : Option (Char × List Char) :=
              if e == '"' then some ('"', cs2)
              else if e == '\\' then some ('\\', cs2)
              else if e == '/' then some ('/', cs2)
              else if e == 'b' then some ('\x08', cs2)
              else if e == 'f' then some ('\x0c', cs2)
              else if e == 'n' then some ('\n', cs2)
              else if e == 'r' then some ('\r', cs2)
              else if e == 't' then some ('\t', cs2)
              else if e == 'u' then
                match cs2 with
                | h1 :: h2 :: h3 :: h4 :: cs3 =>
                    if isHexDigitChar h1 && isHexDigitChar h2 && isHexDigitChar h3 && isHexDigitChar h4 then
                      let code := hexVal h1 * 4096 + hexVal h2 * 256 + hexVal h3 * 16 + hexVal h4
                      some (Char.ofNat code, cs3)
                    else none
                | _ => none
              else none
            match esc with
            | some (ch, rest) =>
                (parseJStr fuel rest).map (fun pr => (ch :: pr.1, pr.2))
            | none => none
      else (parseJStr fuel cs).map (fun pr => (c :: pr.1, pr.2))

/-- Insert a key/value pair with dict semantics: a duplicate key replaces the
earlier binding, keeping first-insertion order out of scope (lookup by key is
all the engine does with parsed objects). -/
def dictInsert (kvs : List (String × Json)) (k : String) (v : Json) :
    List (String × Json) :=
  (kvs.filter (fun kv => ¬ (kv.1 == k))) ++ [(k, v)]

/-- Parse an integer literal (optional minus, one or more digits). -/
def parseJNum (cs : List Char) : Option (Int × List Char) :=
  let (neg, cs) := match cs with
    | c :: rest => if c == '-' then (true, rest) else (false, c :: rest)
    | [] => (false, [])
  let digits := cs.takeWhile Char.isDigit
  let rest := cs.dropWhile Char.isDigit
  if digits.isEmpty then none
  else
    let n : Nat := digits.foldl (fun acc d => acc * 10 + (d.toNat - 48)) 0
    some (if neg then -(Int.ofNat n) else Int.ofNat n, rest)

mutual

/-- Recursive-descent JSON value parser (fuel-indexed). -/
def parseJVal : Nat → List Char → Option (Json × List Char)
  | 0, _ => none
  | fuel + 1, cs =>
      match skipJsonWs cs with
      | [] => none
      | c :: rest =>
          if c == '"' then
            (parseJStr (rest.length + 1) rest).map
              (fun pr => (Json.str (String.mk pr.1), pr.2))
          else if c == openBraceChar then parseJObj fuel rest
          else if c == '[' then parseJArr fuel rest
          else if c == 't' then
            if "rue".data.isPrefixOf rest then some (Json.bool true, rest.drop 3)
            else none
          else if c == 'f' then
            if "alse".data.isPrefixOf rest then some (Json.bool false, rest.drop 4)
            else none
          else if c == 'n' then
            if "ull".data.isPrefixOf rest then some (Json.null, rest.drop 3)
            else none
          else if c == '-' || c.isDigit then
            (parseJNum (c :: rest)).map (fun pr => (Json.num pr.1, pr.2))
          else none

/-- Object members, starting right after the opening brace. -/
def parseJObj : Nat → List Char → Option (Json × List Char)
  | 0, _ => none
  | fuel + 1, cs =>
      match skipJsonWs cs with
      | c :: rest =>
          if c == closeBraceChar then some (Json.obj [], rest)
          else parseJMembers fuel [] (c :: rest)
      | [] => none

/-- One or more `"key": value` members separated by commas. -/
def parseJMembers : Nat → List (String × Json) → List Char →
    Option (Json × List Char)
  | 0, _, _ => none
  | fuel + 1, acc, cs =>
      match skipJsonWs cs with
      | c :: rest =>
          if c == '"' then
            match parseJStr (rest.length + 1) rest with
            | some (keyChars, afterKey) =>
                match skipJsonWs afterKey with
                | d :: afterColon =>
                    if d == ':' then
                      match parseJVal fuel afterColon with
                      | some (v, afterVal) =>
                          let acc := dictInsert acc (String.mk keyChars) v
                          match skipJsonWs afterVal with
                          | e :: afterSep =>
                              if e == ',' then parseJMembers fuel acc afterSep
                              else if e == closeBraceChar then
                                some (Json.obj acc, afterSep)
                              else none
                          | [] => none
                      | none => none
                    else none
                | [] => none
            | none => none
          else none
      | [] => none

/-- Array elements, starting right after the opening bracket. -/
def parseJArr : Nat → List Char → Option (Json × List Char)
  | 0, _ => none
  | fuel + 1, cs =>
      match skipJsonWs cs with
      | c :: rest =>
          if c == ']' then some (Json.arr [], rest)
          else parseJElems fuel [] (c :: rest)
      | [] => none

/-- One or more array elements separated by commas. -/
def parseJElems : Nat → List Json → List Char → Option (Json × List Char)
  | 0, _, _ => none
  | fuel + 1, acc, cs =>
      match parseJVal fuel cs with
      | some (v, afterVal) =>
          match skipJsonWs afterVal with
          | e :: afterSep =>
              if e == ',' then parseJElems fuel (acc ++ [v]) afterSep
              else if e == ']' then some (Json.arr (acc ++ [v]), afterSep)
              else none
          | [] => none
      | none => none

end

/-- `json.loads`: parse exactly one JSON document with optional surrounding
whitespace. -/
def pyJsonLoads (s : String) : Option Json :=
  match parseJVal (4 * s.length + 8) s.data with
  | some (v, rest) => if (skipJsonWs rest).isEmpty then some v else none
  | none => none

/-- Python `key in container` for the containers `validate_schema` may meet:
key membership for dicts, substring for strings, element equality for lists;
any other operand raises `TypeError`. -/
def pyContains (container : Json) (key : String) : Except String Bool :=
  match container with
  | Json.obj kvs => Except.ok (kvs.any (fun kv => kv.1 == key))
  | Json.str s => Except.ok (findSub key.data s.data).isSome
  | Json.arr xs => Except.ok (xs.any (fun x => jEqStr x key))
  | _ => Except.error "TypeError: argument is not a container"

/-- `x.get(k)` compared with a string literal (`None` never equals it). -/
def jOptEqStr (v : Option Json) (s : String) : Bool :=
  match v with
  | some a => jEqStr a s
  | none => false

/-- Per-entry key-presence test of `validate_schema`'s PATCH branch
(`"path" not in f or "content" not in f or "action" not in f`). -/
def patchSchemaEntry : Json → Except String Unit := fun f => do
  let hasPath ← pyContains f "path"
  if hasPath = false then
    Except.error "PATCH file entry missing path/content/action"
  else do
    let hasContent ← pyContains f "content"
    if hasContent = false then
      Except.error "PATCH file entry missing path/content/action"
    else do
      let hasAction ← pyContains f "action"
      if hasAction = false then
        Except.error "PATCH file entry missing path/content/action"
      else Except.ok ()

/-- Entry loop of the PATCH branch. -/
def patchSchemaFiles : List Json → Except String Unit
  | [] => Except.ok ()
  | f :: fs => do
      let _ ← patchSchemaEntry f
      patchSchemaFiles fs

/-- `llm.py` `validate_schema`: per-discriminator structural checks.  Note the
PATCH branch checks only that the three keys are present; it does not inspect
the action's value. -/
def validate_schema (o : Json) : Except String Unit :=
  let t := jGet o "type"
  if jOptEqStr t "PATCH" then
    match jGet o "files" with
    | some (Json.arr files) => patchSchemaFiles files
    | _ => Except.error "PATCH missing files list"
  else if jOptEqStr t "PLAN" then
    match jGet o "steps" with
    | some (Json.arr _) => Except.ok ()
    | _ => Except.error "PLAN missing steps list"
  else if jOptEqStr t "SPECIFICATION" then
    match jGet o "requirements" with
    | some (Json.arr _) => Except.ok ()
    | _ => Except.error "SPECIFICATION missing requirements list"
  else if jOptEqStr t "REVIEW" then
    match jGet o "status" with
    | some s =>
        if jEqStr s "APPROVE" || jEqStr s "REJECT" then Except.ok ()
        else Except.error "REVIEW missing status"
    | none => Except.error "REVIEW missing status"
  else if jOptEqStr t "TEST_REPORT" then
    match jGet o "success" with
    | some _ => Except.ok ()
    | none => Except.error "TEST_REPORT missing success boolean"
  else if jOptEqStr t "COMMAND" then
    match jGet o "command" with
    | none => Except.error "COMMAND missing command string"
    | some cmd =>
        if jEqStr cmd "run_shell" then
          match jGet o "args" with
          | some (Json.str _) => Except.ok ()
          | _ => Except.error "COMMAND run_shell requires args string"
        else if jEqStr cmd "write_file" then
          match jGet o "file" with
          | some (Json.str _) =>
              (match jGet o "content" with
               | some (Json.str _) => Except.ok ()
               | _ => Except.error "COMMAND write_file requires content string")
          | _ => Except.error "COMMAND write_file requires file string"
        else if jEqStr cmd "read_files" then
          match jGet o "files" with
          | some (Json.arr _) => Except.ok ()
          | _ => Except.error "COMMAND read_files requires files list"
        else if jEqStr cmd "verify_url" then
          match jGet o "args" with
          | some (Json.str _) => Except.ok ()
          | _ => Except.error "COMMAND verify_url requires args string"
        else Except.ok ()
  else Except.ok ()

/-- The text-extraction stage of `parse_single_json_object`: strip reasoning
blocks, then the command-delimiter interior, then the fenced-block interior,
then the first-brace-to-last-brace slice — each stage applied in sequence to
the previous stage's output, as in the source. -/
def extractStage (text : String) : List Char :=
  let cs := pyStripChars (removeThink text.data)
  let cs := match commandExtract cs with
    | some inner => inner
    | none => cs
  let cs := match fencedSearch cs with
    | some g => pyStripChars g
    | none => cs
  braceSlice cs

/-- `llm.py` `parse_single_json_object`: extract, parse, require an object,
validate its schema, and require a known discriminator. -/
def parse_single_json_object (text : String) : Except String Json :=
  let cs := extractStage text
  match pyJsonLoads (String.mk cs) with
  | none => Except.error "Invalid JSON"
  | some v =>
      match v with
      | Json.obj _ => do
          let _ ← validate_schema v
          match jGet v "type" with
          | some (Json.str t) =>
              if t ∈ ALLOWED_TYPES then Except.ok v
              else Except.error ("Invalid or missing type: " ++ t)
          | _ => Except.error "Invalid or missing type"
      | _ => Except.error "LLM output must be a JSON object"

/-- `llm.py` `assert_type`. -/
def assert_type (o : Json) (expected : String) : Except String Unit :=
  if jOptEqStr (jGet o "type") expected then Except.ok ()
  else Except.error ("Expected type=" ++ expected)

/-- One model-backend exchange as seen by `chat_json`: a transport-level
failure (HTTP or any other request/decoding exception), or a reply carrying
the generated text and the truncation flag. -/
inductive LLMResponse where
  | transportError
  | reply (content : String) (finishLength : Bool)

/-- The retry loop of `LLMClient.chat_json` over a response oracle indexed by
attempt number.  The corrective note appended to the outgoing request on a
retry is prompt content only and cannot influence the oracle; the
`truncation_warning` / `parsed_error_msg` flags only shape that note.  `k`
counts the remaining loop iterations (`attempt + k = retries`). -/
def chatJsonAux (responses : Nat → LLMResponse) (retries : Nat) :
    Nat → Nat → Except String Json
  | 0, _ => Except.error "LLM retries exhausted"
  | k + 1, attempt =>
      match responses attempt with
      | LLMResponse.transportError =>
          if attempt = retries - 1 then Except.error "LLM request failed"
          else chatJsonAux responses retries k (attempt + 1)
      | LLMResponse.reply content _ =>
          match parse_single_json_object content with
          | Except.ok o => Except.ok o
          | Except.error e =>
              if attempt < retries - 1 then chatJsonAux responses retries k (attempt + 1)
              else Except.error ("LLM failed format after retries: " ++ e)

/-- `LLMClient.chat_json` with a configurable retry bound. -/
def chat_json (retries : Nat) (responses : Nat → LLMResponse) :
    Except String Json :=
  chatJsonAux responses retries retries 0

/-- Success test for an `Except` result. -/
def exceptOk {ε α : Type} : Except ε α → Bool
  | Except.ok _ => true
  | Except.error _ => false

/-! ## ContextStore (`state.py`, `StateManager`)

`save_context` serializes the `RunContext` to a JSON document written to
`context.json`; `load_context` reads it back, returning `None` on a missing
file or on any exception during reading or reconstruction.  The on-disk text
layer (`json.dump` / `json.load`) is modelled as storing the JSON value
itself; the timestamped backup copy does not influence loading. -/

/-- Serialization of an optional artifact: Python `None` becomes JSON null. -/
def encodeOptJson (v : Option Json) : Json :=
  v.getD Json.null

/-- `data.get(k)` for an optional artifact: an absent key or a null value both
deserialize to Python `None`. -/
def decodeOptJson : Option Json → Option Json
  | none => none
  | some Json.null => none
  | some j => some j

/-- `StateManager.save_context`: the serialized context dictionary. -/
def save_context (ctx : RunContext) : Json :=
  Json.obj
    [("packet", Json.obj
        [("objective", Json.str ctx.packet.objective),
         ("workspace_dir", Json.str ctx.packet.workspace_dir),
         ("files_allowed", Json.arr (ctx.packet.files_allowed.map Json.str)),
         ("task_id", Json.str ctx.packet.task_id)]),
     ("frozen_spec", encodeOptJson ctx.frozen_spec),
     ("plan", encodeOptJson ctx.plan),
     ("patches", Json.arr ctx.patches),
     ("test_reports", Json.arr ctx.test_reports),
     ("spec_review", encodeOptJson ctx.spec_review),
     ("patch_review", encodeOptJson ctx.patch_review),
     ("current_state", Json.str ctx.current_state.name),
     ("iteration_count", Json.num (Int.ofNat ctx.iteration_count))]

/-- Decode a required string field (`data[...]`; a missing key raises and the
surrounding `except` turns it into `None`). -/
def decodeStr : Option Json → Option String
  | some (Json.str s) => some s
  | _ => none

/-- Decode the allowlist (`tuple(data["packet"]["files_allowed"])`). -/
def decodeStrList : Option Json → Option (List String)
  | some (Json.arr xs) =>
      xs.mapM (fun x => match x with | Json.str s => some s | _ => none)
  | _ => none

/-- Decode a history list (`data.get(k, [])`); a present non-list value is
modelled as a failed load (Python would defer the type error instead). -/
def decodeList : Option Json → Option (List Json)
  | none => some []
  | some (Json.arr xs) => some xs
  | some _ => none

/-- `StateManager.load_context`: `None` when the context file is absent, and
`None` on any failure while rebuilding the context (the source catches every
exception).  The engine only ever persists non-negative iteration counts, so
the count decodes to `Nat`. -/
def load_context (file : Option Json) : Option RunContext :=
  match file with
  | none => none
  | some data => do
      let packetJ ← jGet data "packet"
      let objective ← decodeStr (jGet packetJ "objective")
      let workspace_dir ← decodeStr (jGet packetJ "workspace_dir")
      let files_allowed ← decodeStrList (jGet packetJ "files_allowed")
      let task_id ← decodeStr (jGet packetJ "task_id")
      let patches ← decodeList (jGet data "patches")
      let test_reports ← decodeList (jGet data "test_reports")
      let current_state ← (match jGet data "current_state" with
        | none => State.ofName "SPEC"
        | some (Json.str s) => State.ofName s
        | some _ => none)
      let iteration_count ← (match jGet data "iteration_count" with
        | none => some 0
        | some (Json.num n) => some n.toNat
        | some _ => none)
      some
        { packet := TaskPacket.mk objective workspace_dir files_allowed task_id,
          frozen_spec := decodeOptJson (jGet data "frozen_spec"),
          plan := decodeOptJson (jGet data "plan"),
          patches := patches,
          test_reports := test_reports,
          spec_review := decodeOptJson (jGet data "spec_review"),
          patch_review := decodeOptJson (jGet data "patch_review"),
          latest_research_report := none,
          current_state := current_state,
          iteration_count := iteration_count }

/-! ## WorkflowEngine (`core.py`, `PersistentOrchestrator`)

The run loop is embedded as a step function over the orchestrator state.  The
nondeterministic parts of each phase — agent sessions, LLM calls, filesystem
and shell effects — are abstracted into an environment oracle indexed by the
iteration counter (which is unique per loop pass).  Each oracle can also
`raise`, modelling an exception that propagates to the run loop's single
`except` handler (which logs and returns exit code 1). -/

/-- Outcome of one phase's external interaction. -/
inductive PhaseOut (α : Type) where
  | ok (a : α)
  | raise

/-- Outcome of the APPLY phase's inner `try` block: `apply_patch` or the gate
runner raised (caught locally, driving the engine to FAILED), or the apply
gates evaluated to a pass/fail verdict (the string is the formatted failure
report body used when the gates fail). -/
inductive ApplyOut where
  | raised
  | gatesPassed
  | gatesFailed (report : String)

/-- The environment oracle: one entry per model- or tool-backed phase. -/
structure Env where
  specPhase : Nat → PhaseOut Json
  specReviewPhase : Nat → PhaseOut (Option String × Json)
  specRepairPhase : Nat → PhaseOut Json
  planPhase : Nat → PhaseOut Json
  patchPhase : Nat → PhaseOut Json
  applyPhase : Nat → ApplyOut
  patchReviewPhase : Nat → PhaseOut Json
  testPhase : Nat → PhaseOut (Bool × String)
  repairPatchPhase : Nat → PhaseOut Json

/-- Orchestrator state inside `run`'s loop. -/
structure Orch where
  ctx : RunContext
  state : State
  repair_count : Nat
  spec_repair_count : Nat

/-- Result of one loop pass: continue with a new state, or abort the run
(the single `except` handler returns exit code 1). -/
inductive StepResult where
  | next (o : Orch)
  | abort (o : Orch)

/-- `save_state`: persist the context with `current_state` synced to the
loop's state variable. -/
def saveState (o : Orch) : Orch :=
  { o with ctx := { o.ctx with current_state := o.state } }

/-- One pass of `PersistentOrchestrator.run`'s while loop, from the
`iteration_count` increment to `save_state` (the SPEC_REPAIR budget check
leaves via `continue` and skips `save_state`, as in the source). -/
def step (env : Env) (o : Orch) : StepResult :=
  let i := o.ctx.iteration_count + 1
  let ctx := { o.ctx with iteration_count := i }
  match o.state with
  | State.SPEC =>
      (match env.specPhase i with
       | PhaseOut.raise => StepResult.abort { o with ctx := ctx }
       | PhaseOut.ok spec =>
          match assert_type spec "SPECIFICATION" with
          | Except.error _ => StepResult.abort { o with ctx := ctx }
          | Except.ok _ =>
              StepResult.next (saveState
                { o with ctx := { ctx with frozen_spec := some spec },
                         state := State.SPEC_REVIEW }))
  | State.SPEC_REVIEW =>
      (match env.specReviewPhase i with
       | PhaseOut.raise => StepResult.abort { o with ctx := ctx }
       | PhaseOut.ok (research, review) =>
          let ctx := match research with
            | some r => { ctx with latest_research_report := some r }
            | none => ctx
          match assert_type review "REVIEW" with
          | Except.error _ => StepResult.abort { o with ctx := ctx }
          | Except.ok _ =>
              let ctx := { ctx with spec_review := some review }
              if jOptEqStr (jGet review "status") "APPROVE" then
                StepResult.next (saveState { o with ctx := ctx, state := State.PLAN })
              else
                StepResult.next (saveState { o with ctx := ctx, state := State.SPEC_REPAIR }))
  | State.SPEC_REPAIR =>
      if MAX_SPEC_REPAIRS ≤ o.spec_repair_count then
        StepResult.next { o with ctx := ctx, state := State.FAILED }
      else
        (match env.specRepairPhase i with
         | PhaseOut.raise =>
            StepResult.abort
              { o with ctx := ctx, spec_repair_count := o.spec_repair_count + 1 }
         | PhaseOut.ok spec2 =>
            match assert_type spec2 "SPECIFICATION" with
            | Except.error _ =>
                StepResult.abort
                  { o with ctx := ctx, spec_repair_count := o.spec_repair_count + 1 }
            | Except.ok _ =>
                StepResult.next (saveState
                  { o with ctx := { ctx with frozen_spec := some spec2 },
                           state := State.SPEC_REVIEW,
                           spec_repair_count := o.spec_repair_count + 1 }))
  | State.PLAN =>
      (match env.planPhase i with
       | PhaseOut.raise => StepResult.abort { o with ctx := ctx }
       | PhaseOut.ok plan =>
          match assert_type plan "PLAN" with
          | Except.error _ => StepResult.abort { o with ctx := ctx }
          | Except.ok _ =>
              StepResult.next (saveState
                { o with ctx := { ctx with plan := some plan },
                         state := State.PATCH }))
  | State.PATCH =>
      (match env.patchPhase i with
       | PhaseOut.raise => StepResult.abort { o with ctx := ctx }
       | PhaseOut.ok patch =>
          match assert_type patch "PATCH" with
          | Except.error _ => StepResult.abort { o with ctx := ctx }
          | Except.ok _ =>
              StepResult.next (saveState
                { o with ctx := { ctx with patches := ctx.patches ++ [patch] },
                         state := State.APPLY }))
  | State.APPLY =>
      (match env.applyPhase i with
       | ApplyOut.raised =>
          StepResult.next (saveState { o with ctx := ctx, state := State.FAILED })
       | ApplyOut.gatesPassed =>
          StepResult.next (saveState { o with ctx := ctx, state := State.PATCH_REVIEW })
       | ApplyOut.gatesFailed report =>
          let failure := Json.obj [("success", Json.bool false),
                                   ("report", Json.str report)]
          StepResult.next (saveState
            { o with ctx := { ctx with test_reports := ctx.test_reports ++ [failure] },
                     state := State.REPAIR_PATCH }))
  | State.PATCH_REVIEW =>
      (match env.patchReviewPhase i with
       | PhaseOut.raise => StepResult.abort { o with ctx := ctx }
       | PhaseOut.ok review =>
          match assert_type review "REVIEW" with
          | Except.error _ => StepResult.abort { o with ctx := ctx }
          | Except.ok _ =>
              StepResult.next (saveState
                { o with ctx := { ctx with patch_review := some review },
                         state := State.TEST }))
  | State.TEST =>
      (match env.testPhase i with
       | PhaseOut.raise => StepResult.abort { o with ctx := ctx }
       | PhaseOut.ok (all_passed, report_text) =>
          let test_report := Json.obj
            [("type", Json.str "TEST_REPORT"),
             ("success", Json.bool all_passed),
             ("report", Json.str report_text)]
          let ctx := { ctx with test_reports := ctx.test_reports ++ [test_report] }
          if all_passed then
            StepResult.next (saveState { o with ctx := ctx, state := State.DONE })
          else if o.repair_count < MAX_REPAIRS then
            StepResult.next (saveState
              { o with ctx := ctx, state := State.REPAIR_PATCH,
                       repair_count := o.repair_count + 1 })
          else
            StepResult.next (saveState { o with ctx := ctx, state := State.FAILED }))
  | State.REPAIR_PATCH =>
      (match env.repairPatchPhase i with
       | PhaseOut.raise => StepResult.abort { o with ctx := ctx }
       | PhaseOut.ok patch2 =>
          match assert_type patch2 "PATCH" with
          | Except.error _ => StepResult.abort { o with ctx := ctx }
          | Except.ok _ =>
              StepResult.next (saveState
                { o with ctx := { ctx with patches := ctx.patches ++ [patch2] },
                         state := State.PATCH_REVIEW }))
  | State.DONE => StepResult.next o
  | State.FAILED => StepResult.next o

/-- Truthiness of the last recorded test report's success flag, as the
epilogue reads it (`self.ctx.test_reports and test_reports[-1].get("success")`). -/
def lastReportSuccessTruthy (ctx : RunContext) : Bool :=
  match ctx.test_reports.getLast? with
  | some r => pyTruthyOpt (jGet r "success")
  | none => false

/-- The exit-code computation after the loop ends. -/
def runEpilogue (o : Orch) : Nat :=
  if o.state = State.DONE ∧ lastReportSuccessTruthy o.ctx then 0 else 1

/-- Result of a bounded run: the loop reached a terminal state and returned
an exit code, a phase exception aborted the run (exit code 1), or the fuel
ran out with the loop still going. -/
inductive RunResult where
  | finished (o : Orch) (code : Nat)
  | aborted (o : Orch)
  | outOfFuel (o : Orch)

/-- `PersistentOrchestrator.run`'s while loop, bounded by fuel. -/
def runLoop (env : Env) : Nat → Orch → RunResult
  | fuel, o =>
      if o.state = State.DONE ∨ o.state = State.FAILED then
        RunResult.finished o (runEpilogue o)
      else
        match fuel with
        | 0 => RunResult.outOfFuel o
        | fuel + 1 =>
            match step env o with
            | StepResult.abort oa => RunResult.aborted oa
            | StepResult.next o2 => runLoop env fuel o2

/-- The process exit status of a run outcome (`None` when the bounded model
ran out of fuel before the source loop would have ended). -/
def exitCode : RunResult → Option Nat
  | RunResult.finished _ c => some c
  | RunResult.aborted _ => some 1
  | RunResult.outOfFuel _ => none

/-- The orchestrator state carried by a run outcome. -/
def resultOrch : RunResult → Orch
  | RunResult.finished o _ => o
  | RunResult.aborted o => o
  | RunResult.outOfFuel o => o

/-- `PersistentOrchestrator.__init__`: load any persisted context; start at
its recorded state, or at SPEC with no context when loading yields `None`.
Both repair counters start at zero. -/
structure OrchInit where
  loaded : Option RunContext
  state : State

def orchInit (file : Option Json) : OrchInit :=
  match load_context file with
  | some ctx => OrchInit.mk (some ctx) ctx.current_state
  | none => OrchInit.mk none State.SPEC

/-- The context/packet resolution at the top of `PersistentOrchestrator.run`:
a missing context requires a fresh `TaskPacket` (starting at SPEC) and raises
without one; a loaded context is used as-is and any packet is ignored. -/
def runEntry (init : OrchInit) (packet : Option TaskPacket) : Except String Orch :=
  match init.loaded, packet with
  | none, some p =>
      Except.ok (Orch.mk { packet := p } State.SPEC 0 0)
  | none, none =>
      Except.error "No context loaded and no packet provided"
  | some c, _ =>
      Except.ok (Orch.mk c init.state 0 0)

/-! ## Specification-side predicates and concrete fixtures -/

/-- All recorded test reports carry a boolean `success` field.  Every report
the engine itself appends has this shape; a fresh context satisfies it
vacuously. -/
def WFReports (ctx : RunContext) : Prop :=
  ∀ r ∈ ctx.test_reports, ∃ b, jGet r "success" = some (Json.bool b)

/-- The last recorded test report exists and its success flag is `true`. -/
def lastReportFlagTrue (ctx : RunContext) : Prop :=
  ctx.test_reports.getLast?.bind (fun r => jGet r "success") = some (Json.bool true)

/-- The counters are within their configured maxima. -/
def boundsOk (o : Orch) : Prop :=
  o.repair_count ≤ MAX_REPAIRS ∧ o.spec_repair_count ≤ MAX_SPEC_REPAIRS

/-- Claim-side field requirement on one PATCH file entry after schema
validation: the three keys are present (in Python's `in` sense). -/
def entryHasKeys (f : Json) : Prop :=
  pyContains f "path" = Except.ok true ∧
  pyContains f "content" = Except.ok true ∧
  pyContains f "action" = Except.ok true

/-- Claim-side required fields for a COMMAND payload. -/
def commandFieldsOk (o : Json) (c : Json) : Prop :=
  (c = Json.str "run_shell" → ∃ s, jGet o "args" = some (Json.str s)) ∧
  (c = Json.str "write_file" →
    (∃ s, jGet o "file" = some (Json.str s)) ∧
    (∃ s, jGet o "content" = some (Json.str s))) ∧
  (c = Json.str "read_files" → ∃ xs, jGet o "files" = some (Json.arr xs)) ∧
  (c = Json.str "verify_url" → ∃ s, jGet o "args" = some (Json.str s))

/-- Claim-side per-discriminator shape requirements, as amended: key presence
for PATCH entries (the action value is checked later by patch validation),
and the stated required fields for the other discriminators. -/
def schemaShapeOk (o : Json) : Prop :=
  (jGet o "type" = some (Json.str "PATCH") →
    ∃ files, jGet o "files" = some (Json.arr files) ∧ ∀ f ∈ files, entryHasKeys f) ∧
  (jGet o "type" = some (Json.str "PLAN") →
    ∃ steps, jGet o "steps" = some (Json.arr steps)) ∧
  (jGet o "type" = some (Json.str "SPECIFICATION") →
    ∃ reqs, jGet o "requirements" = some (Json.arr reqs)) ∧
  (jGet o "type" = some (Json.str "REVIEW") →
    jGet o "status" = some (Json.str "APPROVE") ∨
    jGet o "status" = some (Json.str "REJECT")) ∧
  (jGet o "type" = some (Json.str "TEST_REPORT") →
    ∃ v, jGet o "success" = some v) ∧
  (jGet o "type" = some (Json.str "COMMAND") →
    ∃ c, jGet o "command" = some c ∧ commandFieldsOk o c)

/-- The raw model response of the spec's extraction scenario. -/
def scenarioText : String :=
  "Here is the answer: \x7b\"type\":\"PATCH\",\"files\":[\x7b\"path\":\"a.py\",\"action\":\"write\",\"content\":\"print(1)\"\x7d]\x7d done"

/-- The PATCH object that scenario must extract and validate. -/
def scenarioObj : Json :=
  Json.obj [("type", Json.str "PATCH"),
            ("files", Json.arr [Json.obj [("path", Json.str "a.py"),
                                          ("action", Json.str "write"),
                                          ("content", Json.str "print(1)")]])]

/-- A response whose PATCH entry carries `action:"delete"`. -/
def deleteActionText : String :=
  "\x7b\"type\":\"PATCH\",\"files\":[\x7b\"path\":\"a.py\",\"action\":\"delete\",\"content\":\"x\"\x7d]\x7d"

def deleteActionObj : Json :=
  Json.obj [("type", Json.str "PATCH"),
            ("files", Json.arr [Json.obj [("path", Json.str "a.py"),
                                          ("action", Json.str "delete"),
                                          ("content", Json.str "x")]])]

/-- A well-formed SPECIFICATION response text. -/
def validSpecText : String :=
  "\x7b\"type\":\"SPECIFICATION\",\"requirements\":[]\x7d"

/-- The response oracle of the retry scenario: three malformed (non-JSON)
replies followed by well-formed ones. -/
def malformedThenValid : Nat → LLMResponse := fun n =>
  if n < 3 then LLMResponse.reply "not json" false
  else LLMResponse.reply validSpecText false

/-! Concrete fixtures used by witness theorems. -/

def packetFix : TaskPacket := TaskPacket.mk "build a daemon" "ws" [] "t1"

def orchFix : Orch := Orch.mk { packet := packetFix } State.SPEC 0 0

def specFix : Json :=
  Json.obj [("type", Json.str "SPECIFICATION"), ("requirements", Json.arr [])]

def reviewApproveFix : Json :=
  Json.obj [("type", Json.str "REVIEW"), ("status", Json.str "APPROVE")]

def planFix : Json := Json.obj [("type", Json.str "PLAN"), ("steps", Json.arr [])]

def patchFix : Json := Json.obj [("type", Json.str "PATCH"), ("files", Json.arr [])]

/-- An environment in which every phase raises. -/
def envRaiseFix : Env :=
  Env.mk (fun _ => PhaseOut.raise) (fun _ => PhaseOut.raise) (fun _ => PhaseOut.raise)
         (fun _ => PhaseOut.raise) (fun _ => PhaseOut.raise) (fun _ => ApplyOut.raised)
         (fun _ => PhaseOut.raise) (fun _ => PhaseOut.raise) (fun _ => PhaseOut.raise)

/-- An environment in which every phase succeeds and all gates pass. -/
def envGoodFix : Env :=
  Env.mk (fun _ => PhaseOut.ok specFix)
         (fun _ => PhaseOut.ok (none, reviewApproveFix))
         (fun _ => PhaseOut.ok specFix)
         (fun _ => PhaseOut.ok planFix)
         (fun _ => PhaseOut.ok patchFix)
         (fun _ => ApplyOut.gatesPassed)
         (fun _ => PhaseOut.ok reviewApproveFix)
         (fun _ => PhaseOut.ok (true, "all gates passed"))
         (fun _ => PhaseOut.ok patchFix)

def emptyStore : Store := Store.mk [] [] [] []

def toolsEscFix : ToolsCtx := ToolsCtx.mk ["root", "ws"] [] "coder"

def toolsOpenFix : ToolsCtx := ToolsCtx.mk ["ws"] [] "coder"

def toolsAllowFix : ToolsCtx := ToolsCtx.mk ["ws"] ["a.py"] "coder"

def ctxRoundTripFix : RunContext :=
  { packet := TaskPacket.mk "obj" "ws" ["a.py"] "t1",
    frozen_spec := some specFix,
    patches := [patchFix],
    test_reports := [Json.obj [("success", Json.bool true)]],
    current_state := State.TEST,
    iteration_count := 7 }


def orchSpecRepairMaxFix : Orch :=
  Orch.mk { packet := packetFix } State.SPEC_REPAIR 0 2

def orchTestMaxFix : Orch :=
  Orch.mk { packet := packetFix } State.TEST 3 0

def envTestFailFix : Env :=
  { envGoodFix with testPhase := fun _ => PhaseOut.ok (false, "gates failed") }

/-! ## Helper lemmas -/

theorem exceptBindOk {ε α β : Type} (a : α) (f : α → Except ε β) :
    (Except.ok a : Except ε α) >>= f = f a := rfl

theorem exceptBindError {ε α β : Type} (e : ε) (f : α → Except ε β) :
    (Except.error e : Except ε α) >>= f = Except.error e := rfl

theorem jGet_cons_hit (k : String) (v : Json) (kvs : List (String × Json)) :
    jGet (Json.obj ((k, v) :: kvs)) k = some v := by
  simp [jGet, List.find?]

theorem jGet_cons_miss (k2 k : String) (v : Json) (kvs : List (String × Json))
    (h : (k2 == k) = false) :
    jGet (Json.obj ((k2, v) :: kvs)) k = jGet (Json.obj kvs) k := by
  simp [jGet, List.find?, h]

theorem jEqStr_eq_true_iff (v : Json) (s : String) :
    jEqStr v s = true ↔ v = Json.str s := by
  cases v <;> simp [jEqStr]

theorem jOptEqStr_eq_true_iff (v : Option Json) (s : String) :
    jOptEqStr v s = true ↔ v = some (Json.str s) := by
  cases v with
  | none => simp [jOptEqStr]
  | some a => simp [jOptEqStr, jEqStr_eq_true_iff]

theorem checkAllowed_ok_iff (t : ToolsCtx) (rel : String) :
    checkAllowed t rel = Except.ok () ↔
      (t.files_allowed = [] ∨ rel ∈ t.files_allowed) := by
  unfold checkAllowed
  by_cases h : ¬ t.files_allowed.isEmpty ∧ rel ∉ t.files_allowed
  · rw [if_pos h]
    simp only [List.isEmpty_iff] at h
    constructor
    · intro hc; exact absurd hc (by simp)
    · intro hc; rcases hc with hc | hc
      · exact absurd hc h.1
      · exact absurd hc h.2
  · rw [if_neg h]
    simp only [List.isEmpty_iff, not_and_or, not_not] at h
    simp only [true_iff]
    rcases h with h | h
    · exact Or.inl h
    · exact Or.inr h

theorem toolsAbs_escape (t : ToolsCtx) (rel : String)
    (h : ¬ t.workspace.isPrefixOf (normJoin t.workspace (splitPath rel))) :
    toolsAbs t rel = Except.error "path escape blocked" := by
  unfold toolsAbs
  rw [if_neg h]

theorem state_ofName_name (s : State) : State.ofName s.name = some s := by
  cases s <;> rfl

/-- C9: for the command string `rm -rf /` (and any command matching a
destructive denylist pattern), `run_shell` reaches the explicit
denylist-block decision before the allowlist check and before any
subprocess-spawning branch, returning the denylist-match error; the
`blocked` constructor is an early `return` of an error string, so no process
is spawned. -/
theorem C9_denylist_blocks_before_any_execution :
    run_shell_decision "rm -rf /" = ShellDecision.blocked "rm\\s+-rf\\s+/" ∧
    ∀ cmd : String,
      (∃ p, run_shell_decision cmd = ShellDecision.blocked p) ↔
      (∃ pr ∈ BLACKLIST_PATTERNS, searchPat pr.2 cmd.data = true) := by
  constructor
  · rfl
  · intro cmd
    constructor
    · rintro ⟨p, hp⟩
      unfold run_shell_decision at hp
      cases hfind : BLACKLIST_PATTERNS.find? (fun pr => searchPat pr.2 cmd.data) with
      | some pr =>
          refine ⟨pr, List.mem_of_find?_eq_some hfind, ?_⟩
          have hpr := List.find?_some hfind
          simpa using hpr
      | none =>
          rw [hfind] at hp
          rcases hs : pySplitWs (pyStripChars cmd.data) with _ | ⟨base, rest⟩ <;>
            rw [hs] at hp <;> simp only [] at hp
          · exact absurd hp (by simp)
          · split at hp
            · exact absurd hp (by simp)
            · split at hp
              · exact absurd hp (by simp)
              · exact absurd hp (by simp)
    · rintro ⟨pr, hmem, hmatch⟩
      have hsome : (BLACKLIST_PATTERNS.find? (fun x => searchPat x.2 cmd.data)).isSome := by
        rw [List.find?_isSome]
        exact ⟨pr, hmem, hmatch⟩
      obtain ⟨pr2, h2⟩ := Option.isSome_iff_exists.mp hsome
      refine ⟨pr2.1, ?_⟩
      unfold run_shell_decision
      rw [h2]

/-- C3: for every workspace-relative path whose resolution escapes the
workspace root, each sandbox file operation taking a path (`read_text`,
`write_text`, `append_text`, `copy_file` on either end, `file_exists`, and
`apply_patch` writing through `write_text`) raises and performs no filesystem
mutation: every operation returns `Except.error` before producing any updated
store, so no snapshot is recorded and no file is created or overwritten. -/
theorem C3_escaping_path_rejected_without_mutation
    (t : ToolsCtx) (st : Store) (rel other content : String) (mb : Nat) (bk : Bool)
    (hesc : ¬ t.workspace.isPrefixOf (normJoin t.workspace (splitPath rel))) :
    (∃ e, read_text t st rel mb = Except.error e) ∧
    (∃ e, write_text t st rel content bk = Except.error e) ∧
    (∃ e, append_text t st rel content = Except.error e) ∧
    (∃ e, copy_file t st rel other = Except.error e) ∧
    (∃ e, copy_file t st other rel = Except.error e) ∧
    (∃ e, file_exists t st rel = Except.error e) ∧
    (∃ e, apply_patch t st
        [("files", Json.arr [Json.obj [("path", Json.str rel),
                                       ("action", Json.str "write"),
                                       ("content", Json.str content)]])] =
      Except.error e) := by
  have habs := toolsAbs_escape t rel hesc
  have hwrite : ∀ st2 c2 b2, ∃ e, write_text t st2 rel c2 b2 = Except.error e := by
    intro st2 c2 b2
    cases hca : checkAllowed t rel with
    | error e => exact ⟨e, by simp [write_text, hca, exceptBindError]⟩
    | ok u =>
        cases u
        exact ⟨"path escape blocked",
          by simp [write_text, hca, habs, exceptBindOk, exceptBindError]⟩
  refine ⟨?_, hwrite st content bk, ?_, ?_, ?_, ?_, ?_⟩
  · cases hca : checkAllowed t rel with
    | error e => exact ⟨e, by simp [read_text, hca, exceptBindError]⟩
    | ok u =>
        cases u
        exact ⟨"path escape blocked",
          by simp [read_text, hca, habs, exceptBindOk, exceptBindError]⟩
  · cases hca : checkAllowed t rel with
    | error e => exact ⟨e, by simp [append_text, hca, exceptBindError]⟩
    | ok u =>
        cases u
        exact ⟨"path escape blocked",
          by simp [append_text, hca, habs, exceptBindOk, exceptBindError]⟩
  · cases hca : checkAllowed t rel with
    | error e => exact ⟨e, by simp [copy_file, hca, exceptBindError]⟩
    | ok u =>
        cases u
        cases hcb : checkAllowed t other with
        | error e =>
            exact ⟨e, by simp [copy_file, hca, hcb, exceptBindOk, exceptBindError]⟩
        | ok v =>
            cases v
            exact ⟨"path escape blocked",
              by simp [copy_file, hca, hcb, habs, exceptBindOk, exceptBindError]⟩
  · cases hcb : checkAllowed t other with
    | error e => exact ⟨e, by simp [copy_file, hcb, exceptBindError]⟩
    | ok v =>
        cases v
        cases hca : checkAllowed t rel with
        | error e =>
            exact ⟨e, by simp [copy_file, hca, hcb, exceptBindOk, exceptBindError]⟩
        | ok u =>
            cases u
            cases habso : toolsAbs t other with
            | error e =>
                exact ⟨e, by simp [copy_file, hca, hcb, habso, exceptBindOk, exceptBindError]⟩
            | ok ap =>
                exact ⟨"path escape blocked", by
                  simp [copy_file, hca, hcb, habso, habs, exceptBindOk, exceptBindError]⟩
  · exact ⟨"path escape blocked", by simp [file_exists, habs, exceptBindError]⟩
  · have hfiles : jGet (Json.obj
        [("files", Json.arr [Json.obj [("path", Json.str rel),
                                       ("action", Json.str "write"),
                                       ("content", Json.str content)]])]) "files" =
        some (Json.arr [Json.obj [("path", Json.str rel),
                                  ("action", Json.str "write"),
                                  ("content", Json.str content)]]) :=
      jGet_cons_hit _ _ _
    by_cases hrel : rel = ""
    · refine ⟨"PATCH file entry missing path", ?_⟩
      subst hrel
      simp [apply_patch, hfiles, applyPatchFiles, applyPatchEntry,
            jGet_cons_hit, exceptBindError]
    · have hpath : jGet (Json.obj [("path", Json.str rel),
          ("action", Json.str "write"), ("content", Json.str content)]) "path" =
          some (Json.str rel) := jGet_cons_hit _ _ _
      have haction : jGet (Json.obj [("path", Json.str rel),
          ("action", Json.str "write"), ("content", Json.str content)]) "action" =
          some (Json.str "write") := by
        rw [jGet_cons_miss _ _ _ _ (by decide)]
        exact jGet_cons_hit _ _ _
      have hcontent : jGet (Json.obj [("path", Json.str rel),
          ("action", Json.str "write"), ("content", Json.str content)]) "content" =
          some (Json.str content) := by
        rw [jGet_cons_miss _ _ _ _ (by decide), jGet_cons_miss _ _ _ _ (by decide)]
        exact jGet_cons_hit _ _ _
      obtain ⟨e, he⟩ := hwrite st content true
      refine ⟨e, ?_⟩
      simp [apply_patch, hfiles, applyPatchFiles, applyPatchEntry, hpath, haction,
            hcontent, hrel, actionIsWrite, jEqStr, exceptBindError, exceptBindOk, he]

/-- Witness for C3 at the concrete escaping path `../secret` under workspace
`/root/ws`. -/
theorem C3_escaping_path_witness :
    (∃ e, read_text toolsEscFix emptyStore "../secret" MAX_FILE_READ_BYTES =
      Except.error e) ∧
    (∃ e, write_text toolsEscFix emptyStore "../secret" "content" true =
      Except.error e) ∧
    (∃ e, append_text toolsEscFix emptyStore "../secret" "content" =
      Except.error e) ∧
    (∃ e, copy_file toolsEscFix emptyStore "../secret" "ok.txt" =
      Except.error e) ∧
    (∃ e, copy_file toolsEscFix emptyStore "ok.txt" "../secret" =
      Except.error e) ∧
    (∃ e, file_exists toolsEscFix emptyStore "../secret" = Except.error e) ∧
    (∃ e, apply_patch toolsEscFix emptyStore
        [("files", Json.arr [Json.obj [("path", Json.str "../secret"),
                                       ("action", Json.str "write"),
                                       ("content", Json.str "content")]])] =
      Except.error e) :=
  C3_escaping_path_rejected_without_mutation toolsEscFix emptyStore "../secret"
    "ok.txt" "content" MAX_FILE_READ_BYTES true (by decide)

theorem actionIsWrite_eq_jOptEqStr (v : Option Json) :
    actionIsWrite v = jOptEqStr v "write" := by
  cases v <;> rfl

theorem patchEntryViolation_none_iff (t : ToolsCtx) (item : Json) :
    patchEntryViolation t item = none ↔ goodPatchEntry t item := by
  cases item with
  | obj kvs =>
      simp only [patchEntryViolation]
      cases hpath : jGet (Json.obj kvs) "path" with
      | none => simp [goodPatchEntry, hpath]
      | some pv =>
          cases pv with
          | str p =>
              dsimp only
              by_cases hp : p = ""
              · subst hp
                simp [goodPatchEntry, hpath]
              · rw [if_neg hp]
                by_cases hw : actionIsWrite (jGet (Json.obj kvs) "action") = false
                · rw [if_pos hw]
                  rw [actionIsWrite_eq_jOptEqStr] at hw
                  simp only [goodPatchEntry, hpath]
                  constructor
                  · intro h; exact absurd h (by simp)
                  · rintro ⟨kvs2, p2, c2, -, hp2, -, haction, -, -⟩
                    rw [← jOptEqStr_eq_true_iff] at haction
                    rw [haction] at hw
                    exact absurd hw (by simp)
                · rw [if_neg hw]
                  have haction : jGet (Json.obj kvs) "action" = some (Json.str "write") := by
                    rw [actionIsWrite_eq_jOptEqStr] at hw
                    rw [← jOptEqStr_eq_true_iff]
                    exact eq_true_of_ne_false hw
                  cases hcontent : jGet (Json.obj kvs) "content" with
                  | none => simp [goodPatchEntry, hpath, hcontent]
                  | some cv =>
                      cases cv with
                      | str c =>
                          dsimp only
                          cases hca : checkAllowed t p with
                          | ok u =>
                              cases u
                              have hallow := (checkAllowed_ok_iff t p).mp hca
                              constructor
                              · intro _
                                exact ⟨kvs, p, c, rfl, hpath, hp, haction,
                                       hcontent, hallow⟩
                              · intro _; rfl
                          | error e =>
                              constructor
                              · intro h; exact absurd h (by simp)
                              · rintro ⟨kvs2, p2, c2, heq, hp2, -, -, -, hallow⟩
                                cases heq
                                rw [hpath] at hp2
                                have hpp : p = p2 := by
                                  simpa using hp2
                                subst hpp
                                have hok := (checkAllowed_ok_iff t p).mpr hallow
                                rw [hca] at hok
                                exact absurd hok (by simp)
                      | null => simp [goodPatchEntry, hpath, hcontent]
                      | bool b => simp [goodPatchEntry, hpath, hcontent]
                      | num n => simp [goodPatchEntry, hpath, hcontent]
                      | arr xs => simp [goodPatchEntry, hpath, hcontent]
                      | obj kvs2 => simp [goodPatchEntry, hpath, hcontent]
          | null => simp [goodPatchEntry, hpath]
          | bool b => simp [goodPatchEntry, hpath]
          | num n => simp [goodPatchEntry, hpath]
          | arr xs => simp [goodPatchEntry, hpath]
          | obj kvs2 => simp [goodPatchEntry, hpath]
  | null => simp [patchEntryViolation, goodPatchEntry]
  | bool b => simp [patchEntryViolation, goodPatchEntry]
  | str s => simp [patchEntryViolation, goodPatchEntry]
  | num n => simp [patchEntryViolation, goodPatchEntry]
  | arr xs => simp [patchEntryViolation, goodPatchEntry]

theorem firstPatchViolation_none_iff (t : ToolsCtx) (files : List Json) :
    firstPatchViolation t files = none ↔
      ∀ item ∈ files, patchEntryViolation t item = none := by
  induction files with
  | nil => simp [firstPatchViolation]
  | cons hd tl ih =>
      cases hhd : patchEntryViolation t hd with
      | some v => simp [firstPatchViolation, hhd]
      | none => simp [firstPatchViolation, hhd, ih]

theorem firstPatchViolation_some (t : ToolsCtx) (files : List Json) (v : String)
    (h : firstPatchViolation t files = some v) :
    ∃ pre bad rest, files = pre ++ bad :: rest ∧
      (∀ x ∈ pre, patchEntryViolation t x = none) ∧
      patchEntryViolation t bad = some v := by
  induction files with
  | nil => simp [firstPatchViolation] at h
  | cons hd tl ih =>
      cases hhd : patchEntryViolation t hd with
      | some w =>
          rw [firstPatchViolation, hhd] at h
          cases h
          exact ⟨[], hd, tl, rfl, by simp, hhd⟩
      | none =>
          rw [firstPatchViolation, hhd] at h
          obtain ⟨pre, bad, rest, heq, hpre, hbad⟩ := ih h
          refine ⟨hd :: pre, bad, rest, by rw [heq]; rfl, ?_, hbad⟩
          intro x hx
          rcases List.mem_cons.mp hx with hx | hx
          · rw [hx]; exact hhd
          · exact hpre x hx

/-- C2: for every PATCH payload, `validate_patch` returns no violation iff the
payload's `files` field is a list every entry of which is an object with a
non-empty string path, action exactly `"write"`, string content, and (when a
non-empty allowlist is configured) a path inside the allowlist; when it does
report a violation, the reported violation is the first one in entry order.
The check is a pure function of the payload and the allowlist (the embedding
has no store argument because the source performs no side effect). -/
theorem C2_validate_patch_no_violation_iff (t : ToolsCtx)
    (patch : List (String × Json)) :
    (validate_patch t patch = none ↔
      ∃ files, jGet (Json.obj patch) "files" = some (Json.arr files) ∧
        ∀ item ∈ files, goodPatchEntry t item) ∧
    (∀ files v, jGet (Json.obj patch) "files" = some (Json.arr files) →
      validate_patch t patch = some v →
      ∃ pre bad rest, files = pre ++ bad :: rest ∧
        (∀ x ∈ pre, goodPatchEntry t x) ∧ ¬ goodPatchEntry t bad) := by
  constructor
  · cases hv : jGet (Json.obj patch) "files" with
    | none => simp [validate_patch, hv]
    | some j =>
        cases j with
        | arr files =>
            rw [validate_patch, hv]
            rw [firstPatchViolation_none_iff]
            constructor
            · intro h
              exact ⟨files, rfl, fun item hm =>
                (patchEntryViolation_none_iff t item).mp (h item hm)⟩
            · rintro ⟨files2, heq, hgood⟩
              cases heq
              intro item hm
              exact (patchEntryViolation_none_iff t item).mpr (hgood item hm)
        | null => simp [validate_patch, hv]
        | bool b => simp [validate_patch, hv]
        | str s => simp [validate_patch, hv]
        | num n => simp [validate_patch, hv]
        | obj kvs => simp [validate_patch, hv]
  · intro files v hv hsome
    rw [validate_patch, hv] at hsome
    obtain ⟨pre, bad, rest, heq, hpre, hbad⟩ := firstPatchViolation_some t files v hsome
    refine ⟨pre, bad, rest, heq, ?_, ?_⟩
    · intro x hx
      exact (patchEntryViolation_none_iff t x).mp (hpre x hx)
    · intro hg
      rw [← patchEntryViolation_none_iff t bad] at hg
      rw [hg] at hbad
      exact absurd hbad (by simp)

/-- Witness for C2: a payload whose first entry is valid and second entry
uses `action:"delete"` reports the violation of that second entry. -/
theorem C2_validate_patch_witness :
    jGet (Json.obj [("files", Json.arr
        [Json.obj [("path", Json.str "a.py"), ("action", Json.str "write"),
                   ("content", Json.str "ok")],
         Json.obj [("path", Json.str "b.py"), ("action", Json.str "delete"),
                   ("content", Json.str "x")]])]) "files" =
      some (Json.arr
        [Json.obj [("path", Json.str "a.py"), ("action", Json.str "write"),
                   ("content", Json.str "ok")],
         Json.obj [("path", Json.str "b.py"), ("action", Json.str "delete"),
                   ("content", Json.str "x")]]) ∧
    validate_patch toolsOpenFix [("files", Json.arr
        [Json.obj [("path", Json.str "a.py"), ("action", Json.str "write"),
                   ("content", Json.str "ok")],
         Json.obj [("path", Json.str "b.py"), ("action", Json.str "delete"),
                   ("content", Json.str "x")]])] =
      some "PATCH supports only action=write" ∧
    ∃ pre bad rest,
      ([Json.obj [("path", Json.str "a.py"), ("action", Json.str "write"),
                  ("content", Json.str "ok")],
        Json.obj [("path", Json.str "b.py"), ("action", Json.str "delete"),
                  ("content", Json.str "x")]] : List Json) = pre ++ bad :: rest ∧
      (∀ x ∈ pre, goodPatchEntry toolsOpenFix x) ∧
      ¬ goodPatchEntry toolsOpenFix bad := by
  have h1 : jGet (Json.obj [("files", Json.arr
      [Json.obj [("path", Json.str "a.py"), ("action", Json.str "write"),
                 ("content", Json.str "ok")],
       Json.obj [("path", Json.str "b.py"), ("action", Json.str "delete"),
                 ("content", Json.str "x")]])]) "files" =
      some (Json.arr
        [Json.obj [("path", Json.str "a.py"), ("action", Json.str "write"),
                   ("content", Json.str "ok")],
         Json.obj [("path", Json.str "b.py"), ("action", Json.str "delete"),
                   ("content", Json.str "x")]]) := rfl
  have h2 : validate_patch toolsOpenFix [("files", Json.arr
      [Json.obj [("path", Json.str "a.py"), ("action", Json.str "write"),
                 ("content", Json.str "ok")],
       Json.obj [("path", Json.str "b.py"), ("action", Json.str "delete"),
                 ("content", Json.str "x")]])] =
      some "PATCH supports only action=write" := rfl
  exact ⟨h1, h2,
    (C2_validate_patch_no_violation_iff toolsOpenFix _).2 _ _ h1 h2⟩

theorem mem_insertLe (x y : String) (l : List String) :
    y ∈ insertLe x l ↔ y = x ∨ y ∈ l := by
  induction l with
  | nil => simp [insertLe]
  | cons hd tl ih =>
      by_cases h : x ≤ hd
      · simp [insertLe, h]
      · simp [insertLe, h, ih]
        tauto

theorem mem_sortLe (y : String) (l : List String) : y ∈ sortLe l ↔ y ∈ l := by
  induction l with
  | nil => simp [sortLe]
  | cons hd tl ih =>
      show y ∈ insertLe hd (sortLe tl) ↔ _
      rw [mem_insertLe]
      simp [ih]

/-- C5 counterexample: with an empty allowlist, the engine's own entry point
`main.py` appears in sandbox listings and a sandbox write to it succeeds
(the entry-point guard in `_check_allowed` and the `main.py` skip in
`list_files` are both commented out in the source), contradicting the claim
that the entry point is always excluded from listings and writes. -/
theorem C5_entry_point_not_excluded_counterexample :
    "main.py" ∈ list_files toolsOpenFix
      (Store.mk [(["ws", "main.py"], "old")] [] [] []) MAX_FILE_LIST_LIMIT ∧
    checkAllowed toolsOpenFix "main.py" = Except.ok () ∧
    write_text toolsOpenFix emptyStore "main.py" "new" true =
      Except.ok (Store.mk [(["ws", "main.py"], "new")] [] [] ["main.py"]) := by
  refine ⟨?_, rfl, rfl⟩
  decide

/-- C5 amended: sandbox listings always exclude the internal state directory
(paths under `.agent_state`) for every allowlist configuration; the engine's
entry point is not excluded from listings, and a sandbox write to `main.py`
is rejected exactly when a non-empty allowlist omits it. -/
theorem C5_state_dir_excluded_writes_allowlist_only :
    (∀ (t : ToolsCtx) (st : Store) (limit : Nat) (p : String),
      p ∈ list_files t st limit → strStartsWith p ".agent_state" = false) ∧
    (∀ t : ToolsCtx,
      (∃ e, checkAllowed t "main.py" = Except.error e) ↔
        (t.files_allowed ≠ [] ∧ "main.py" ∉ t.files_allowed)) := by
  constructor
  · intro t st limit p hp
    unfold list_files at hp
    have hp2 := List.take_subset _ _ hp
    rw [mem_sortLe] at hp2
    have hp3 := List.mem_filter.mp hp2
    simpa using hp3.2
  · intro t
    unfold checkAllowed
    by_cases h : ¬ t.files_allowed.isEmpty ∧ "main.py" ∉ t.files_allowed
    · rw [if_pos h]
      simp only [List.isEmpty_iff] at h
      constructor
      · intro _; exact h
      · intro _; exact ⟨_, rfl⟩
    · rw [if_neg h]
      simp only [List.isEmpty_iff] at h
      constructor
      · rintro ⟨e, he⟩
        exact absurd he (by simp)
      · intro hc; exact absurd hc h

/-- Witness for C5's amended theorem at concrete inputs: a listing containing
only `main.py` has no `.agent_state` entry, and with allowlist `["a.py"]`
the write to `main.py` is rejected. -/
theorem C5_state_dir_excluded_witness :
    strStartsWith "main.py" ".agent_state" = false ∧
    ((∃ e, checkAllowed toolsAllowFix "main.py" = Except.error e) ↔
      (toolsAllowFix.files_allowed ≠ [] ∧
        "main.py" ∉ toolsAllowFix.files_allowed)) :=
  ⟨C5_state_dir_excluded_writes_allowlist_only.1 toolsOpenFix
      (Store.mk [(["ws", "main.py"], "old")] [] [] []) MAX_FILE_LIST_LIMIT
      "main.py" (by decide),
   C5_state_dir_excluded_writes_allowlist_only.2 toolsAllowFix⟩

theorem decodeStrList_map_str (l : List String) :
    decodeStrList (some (Json.arr (l.map Json.str))) = some l := by
  induction l with
  | nil => rfl
  | cons hd tl ih =>
      simp only [decodeStrList, List.map_cons, List.mapM_cons] at ih ⊢
      cases h : (List.map Json.str tl).mapM
          (fun x => match x with | Json.str s => some s | _ => none) with
      | none => rw [h] at ih; exact absurd ih (by simp)
      | some l2 =>
          rw [h] at ih
          simp at ih
          simp [h, ih]

/-- C8: a `RunContext` saved through `save_context` and reloaded through
`load_context` preserves the current phase, both history lists (hence their
lengths), and the last element of each history list. -/
theorem C8_save_load_round_trip (ctx : RunContext) :
    ((load_context (some (save_context ctx))).map (fun c => c.current_state) =
      some ctx.current_state) ∧
    ((load_context (some (save_context ctx))).map (fun c => c.patches) =
      some ctx.patches) ∧
    ((load_context (some (save_context ctx))).map (fun c => c.test_reports) =
      some ctx.test_reports) ∧
    ((load_context (some (save_context ctx))).map (fun c => c.patches.length) =
      some ctx.patches.length) ∧
    ((load_context (some (save_context ctx))).map (fun c => c.patches.getLast?) =
      some ctx.patches.getLast?) ∧
    ((load_context (some (save_context ctx))).map (fun c => c.test_reports.length) =
      some ctx.test_reports.length) ∧
    ((load_context (some (save_context ctx))).map
        (fun c => c.test_reports.getLast?) =
      some ctx.test_reports.getLast?) := by
  have hload : load_context (some (save_context ctx)) = some
      { packet := TaskPacket.mk ctx.packet.objective ctx.packet.workspace_dir
          ctx.packet.files_allowed ctx.packet.task_id,
        frozen_spec := decodeOptJson (some (encodeOptJson ctx.frozen_spec)),
        plan := decodeOptJson (some (encodeOptJson ctx.plan)),
        patches := ctx.patches,
        test_reports := ctx.test_reports,
        spec_review := decodeOptJson (some (encodeOptJson ctx.spec_review)),
        patch_review := decodeOptJson (some (encodeOptJson ctx.patch_review)),
        latest_research_report := none,
        current_state := ctx.current_state,
        iteration_count := ctx.iteration_count } := by
    simp [load_context, save_context, jGet, List.find?, decodeStr,
          decodeStrList_map_str, decodeList, state_ofName_name, Option.bind]
  simp [hload]

/-- C10: an absent context file loads as `None`; any file that fails to
deserialize loads as `None` (the embedding is a total function, mirroring the
source's catch-all handler that never re-raises); and whenever loading yields
`None`, the orchestrator initializes at SPEC with no context, `run` without a
fresh `TaskPacket` raises, and `run` with a packet starts a fresh context at
SPEC — so a corrupted state file never aborts startup and resumption is
silently forfeited. -/
theorem C10_failed_load_yields_fresh_start :
    load_context none = none ∧
    load_context (some (Json.str "garbage")) = none ∧
    ∀ f, load_context f = none →
      (orchInit f).loaded = none ∧
      (orchInit f).state = State.SPEC ∧
      (∃ e, runEntry (orchInit f) none = Except.error e) ∧
      (∀ p, runEntry (orchInit f) (some p) =
        Except.ok (Orch.mk { packet := p } State.SPEC 0 0)) := by
  refine ⟨rfl, rfl, ?_⟩
  intro f h
  have hinit : orchInit f = OrchInit.mk none State.SPEC := by
    unfold orchInit
    rw [h]
  rw [hinit]
  exact ⟨rfl, rfl, ⟨_, rfl⟩, fun p => rfl⟩

/-- Witness for C10 at the concrete corrupt context file `"garbage"`. -/
theorem C10_failed_load_witness :
    (orchInit (some (Json.str "garbage"))).loaded = none ∧
    (orchInit (some (Json.str "garbage"))).state = State.SPEC ∧
    (∃ e, runEntry (orchInit (some (Json.str "garbage"))) none =
      Except.error e) ∧
    (∀ p, runEntry (orchInit (some (Json.str "garbage"))) (some p) =
      Except.ok (Orch.mk { packet := p } State.SPEC 0 0)) :=
  C10_failed_load_yields_fresh_start.2.2 (some (Json.str "garbage")) rfl

theorem parse_not_json :
    parse_single_json_object "not json" = Except.error "Invalid JSON" := rfl

theorem parse_valid_spec :
    parse_single_json_object validSpecText = Except.ok specFix := rfl

/-- C7: with three malformed model responses followed by a well-formed
fourth, `chat_json` succeeds iff the retry bound is at least 4; with the
configured bound of 3 it raises; and a phase exception (which is what an
exhausted `chat_json` raises inside an agent call) aborts the whole run with
exit code 1 rather than merely the current phase. -/
theorem C7_retry_bound_scenario :
    (∀ r, exceptOk (chat_json r malformedThenValid) = true ↔ 4 ≤ r) ∧
    (∃ e, chat_json LLM_RETRIES malformedThenValid = Except.error e) ∧
    (∀ (env : Env) (fuel : Nat) (o oa : Orch),
      o.state ≠ State.DONE → o.state ≠ State.FAILED →
      step env o = StepResult.abort oa →
      runLoop env (fuel + 1) o = RunResult.aborted oa ∧
      exitCode (runLoop env (fuel + 1) o) = some 1) := by
  refine ⟨?_, ⟨"LLM failed format after retries: " ++ "Invalid JSON", rfl⟩, ?_⟩
  · intro r
    constructor
    · intro h
      by_contra hlt
      push_neg at hlt
      interval_cases r <;> revert h <;> decide
    · intro hr
      obtain ⟨k, rfl⟩ : ∃ k, r = k + 4 := ⟨r - 4, by omega⟩
      show exceptOk (chatJsonAux malformedThenValid (k + 4) (k + 4) 0) = true
      have h3 : k + 4 - 1 = k + 3 := by omega
      simp only [chatJsonAux, malformedThenValid, parse_not_json, parse_valid_spec,
                 h3]
      norm_num
      simp [chatJsonAux, malformedThenValid, parse_not_json, parse_valid_spec,
            exceptOk]
  · intro env fuel o oa hd hf hstep
    have hloop : runLoop env (fuel + 1) o = RunResult.aborted oa := by
      rw [runLoop]
      rw [if_neg (by simp [hd, hf])]
      rw [hstep]
    exact ⟨hloop, by rw [hloop]; rfl⟩

/-- Witness for C7's run-abort component: a raising SPEC phase aborts the run
with exit code 1 from the initial state. -/
theorem C7_retry_bound_witness :
    runLoop envRaiseFix 1 orchFix =
      RunResult.aborted
        (Orch.mk { packet := packetFix, iteration_count := 1 } State.SPEC 0 0) ∧
    exitCode (runLoop envRaiseFix 1 orchFix) = some 1 :=
  C7_retry_bound_scenario.2.2 envRaiseFix 0 orchFix
    (Orch.mk { packet := packetFix, iteration_count := 1 } State.SPEC 0 0)
    (by decide) (by decide) rfl

theorem patchSchemaEntry_ok (f : Json) (h : patchSchemaEntry f = Except.ok ()) :
    entryHasKeys f := by
  unfold patchSchemaEntry at h
  cases hp : pyContains f "path" with
  | error e => rw [hp] at h; exact absurd h (by simp [exceptBindError])
  | ok bp =>
      rw [hp] at h
      rw [exceptBindOk] at h
      cases bp with
      | false => exact absurd h (by simp)
      | true =>
          rw [if_neg (by decide)] at h
          cases hc : pyContains f "content" with
          | error e => rw [hc] at h; exact absurd h (by simp [exceptBindError])
          | ok bc =>
              rw [hc] at h
              rw [exceptBindOk] at h
              cases bc with
              | false => exact absurd h (by simp)
              | true =>
                  rw [if_neg (by decide)] at h
                  cases ha : pyContains f "action" with
                  | error e =>
                      rw [ha] at h; exact absurd h (by simp [exceptBindError])
                  | ok ba =>
                      rw [ha] at h
                      rw [exceptBindOk] at h
                      cases ba with
                      | false => exact absurd h (by simp)
                      | true =>
                          exact ⟨hp, hc, ha⟩

theorem patchSchemaFiles_ok (files : List Json)
    (h : patchSchemaFiles files = Except.ok ()) :
    ∀ f ∈ files, entryHasKeys f := by
  induction files with
  | nil => intro f hf; simp at hf
  | cons hd tl ih =>
      intro f hf
      unfold patchSchemaFiles at h
      cases hhd : patchSchemaEntry hd with
      | error e => rw [hhd] at h; exact absurd h (by simp [exceptBindError])
      | ok u =>
          cases u
          rw [hhd, exceptBindOk] at h
          rcases List.mem_cons.mp hf with hf | hf
          · rw [hf]; exact patchSchemaEntry_ok hd hhd
          · exact ih h f hf

theorem jEqStr_str (t s : String) : jEqStr (Json.str t) s = (t == s) := rfl

theorem validate_schema_shape (o : Json) (h : validate_schema o = Except.ok ()) :
    schemaShapeOk o := by
  refine ⟨?_, ?_, ?_, ?_, ?_, ?_⟩
  · intro hty
    rw [validate_schema, hty] at h
    simp only [jOptEqStr, jEqStr_str, String.reduceBEq, Bool.false_eq_true,
               if_false, if_true] at h
    cases hfiles : jGet o "files" with
    | none => rw [hfiles] at h; exact absurd h (by simp)
    | some j =>
        rw [hfiles] at h
        cases j with
        | arr files => exact ⟨files, rfl, patchSchemaFiles_ok files h⟩
        | null => exact absurd h (by simp)
        | bool b => exact absurd h (by simp)
        | str s => exact absurd h (by simp)
        | num n => exact absurd h (by simp)
        | obj kvs => exact absurd h (by simp)
  · intro hty
    rw [validate_schema, hty] at h
    simp only [jOptEqStr, jEqStr_str, String.reduceBEq, Bool.false_eq_true,
               if_false, if_true] at h
    cases hsteps : jGet o "steps" with
    | none => rw [hsteps] at h; exact absurd h (by simp)
    | some j =>
        rw [hsteps] at h
        cases j with
        | arr steps => exact ⟨steps, rfl⟩
        | null => exact absurd h (by simp)
        | bool b => exact absurd h (by simp)
        | str s => exact absurd h (by simp)
        | num n => exact absurd h (by simp)
        | obj kvs => exact absurd h (by simp)
  · intro hty
    rw [validate_schema, hty] at h
    simp only [jOptEqStr, jEqStr_str, String.reduceBEq, Bool.false_eq_true,
               if_false, if_true] at h
    cases hreqs : jGet o "requirements" with
    | none => rw [hreqs] at h; exact absurd h (by simp)
    | some j =>
        rw [hreqs] at h
        cases j with
        | arr reqs => exact ⟨reqs, rfl⟩
        | null => exact absurd h (by simp)
        | bool b => exact absurd h (by simp)
        | str s => exact absurd h (by simp)
        | num n => exact absurd h (by simp)
        | obj kvs => exact absurd h (by simp)
  · intro hty
    rw [validate_schema, hty] at h
    simp only [jOptEqStr, jEqStr_str, String.reduceBEq, Bool.false_eq_true,
               if_false, if_true] at h
    cases hst : jGet o "status" with
    | none => rw [hst] at h; exact absurd h (by simp)
    | some s =>
        rw [hst] at h
        dsimp only at h
        by_cases hs : (jEqStr s "APPROVE" || jEqStr s "REJECT") = true
        · rcases Bool.or_eq_true_iff.mp hs with hs | hs
          · left
            rw [(jEqStr_eq_true_iff s "APPROVE").mp hs]
          · right
            rw [(jEqStr_eq_true_iff s "REJECT").mp hs]
        · rw [if_neg hs] at h
          exact absurd h (by simp)
  · intro hty
    rw [validate_schema, hty] at h
    simp only [jOptEqStr, jEqStr_str, String.reduceBEq, Bool.false_eq_true,
               if_false, if_true] at h
    cases hsuc : jGet o "success" with
    | none => rw [hsuc] at h; exact absurd h (by simp)
    | some v => exact ⟨v, rfl⟩
  · intro hty
    rw [validate_schema, hty] at h
    simp only [jOptEqStr, jEqStr_str, String.reduceBEq, Bool.false_eq_true,
               if_false, if_true] at h
    cases hcmd : jGet o "command" with
    | none => rw [hcmd] at h; exact absurd h (by simp)
    | some cmd =>
        rw [hcmd] at h
        dsimp only at h
        refine ⟨cmd, rfl, ?_, ?_, ?_, ?_⟩
        · rintro rfl
          simp only [jEqStr_str, String.reduceBEq, Bool.false_eq_true,
                     if_false, if_true] at h
          cases hargs : jGet o "args" with
          | none => rw [hargs] at h; exact absurd h (by simp)
          | some v =>
              rw [hargs] at h
              cases v with
              | str s => exact ⟨s, rfl⟩
              | null => exact absurd h (by simp)
              | bool b => exact absurd h (by simp)
              | num n => exact absurd h (by simp)
              | arr xs => exact absurd h (by simp)
              | obj kvs => exact absurd h (by simp)
        · rintro rfl
          simp only [jEqStr_str, String.reduceBEq, Bool.false_eq_true,
                     if_false, if_true] at h
          cases hfile : jGet o "file" with
          | none => rw [hfile] at h; exact absurd h (by simp)
          | some v =>
              rw [hfile] at h
              cases v with
              | str s =>
                  dsimp only at h
                  cases hcont : jGet o "content" with
                  | none => rw [hcont] at h; exact absurd h (by simp)
                  | some w =>
                      rw [hcont] at h
                      cases w with
                      | str s2 => exact ⟨⟨s, rfl⟩, ⟨s2, rfl⟩⟩
                      | null => exact absurd h (by simp)
                      | bool b => exact absurd h (by simp)
                      | num n => exact absurd h (by simp)
                      | arr xs => exact absurd h (by simp)
                      | obj kvs => exact absurd h (by simp)
              | null => exact absurd h (by simp)
              | bool b => exact absurd h (by simp)
              | num n => exact absurd h (by simp)
              | arr xs => exact absurd h (by simp)
              | obj kvs => exact absurd h (by simp)
        · rintro rfl
          simp only [jEqStr_str, String.reduceBEq, Bool.false_eq_true,
                     if_false, if_true] at h
          cases hfs : jGet o "files" with
          | none => rw [hfs] at h; exact absurd h (by simp)
          | some v =>
              rw [hfs] at h
              cases v with
              | arr xs => exact ⟨xs, rfl⟩
              | null => exact absurd h (by simp)
              | bool b => exact absurd h (by simp)
              | str s => exact absurd h (by simp)
              | num n => exact absurd h (by simp)
              | obj kvs => exact absurd h (by simp)
        · rintro rfl
          simp only [jEqStr_str, String.reduceBEq, Bool.false_eq_true,
                     if_false, if_true] at h
          cases hargs : jGet o "args" with
          | none => rw [hargs] at h; exact absurd h (by simp)
          | some v =>
              rw [hargs] at h
              cases v with
              | str s => exact ⟨s, rfl⟩
              | null => exact absurd h (by simp)
              | bool b => exact absurd h (by simp)
              | num n => exact absurd h (by simp)
              | arr xs => exact absurd h (by simp)
              | obj kvs => exact absurd h (by simp)

theorem parse_ok_shape (text : String) (o : Json)
    (h : parse_single_json_object text = Except.ok o) :
    (∃ kvs, o = Json.obj kvs) ∧
    (∃ ty, jGet o "type" = some (Json.str ty) ∧ ty ∈ ALLOWED_TYPES) ∧
    schemaShapeOk o := by
  unfold parse_single_json_object at h
  dsimp only at h
  cases hload : pyJsonLoads (String.mk (extractStage text)) with
  | none => rw [hload] at h; exact absurd h (by simp)
  | some v =>
      rw [hload] at h
      cases v with
      | obj kvs =>
          dsimp only at h
          cases hvs : validate_schema (Json.obj kvs) with
          | error e => rw [hvs] at h; exact absurd h (by simp [exceptBindError])
          | ok u =>
              cases u
              rw [hvs, exceptBindOk] at h
              cases hty : jGet (Json.obj kvs) "type" with
              | none => rw [hty] at h; exact absurd h (by simp)
              | some tv =>
                  rw [hty] at h
                  cases tv with
                  | str ty =>
                      dsimp only at h
                      by_cases hmem : ty ∈ ALLOWED_TYPES
                      · rw [if_pos hmem] at h
                        cases h
                        exact ⟨⟨kvs, rfl⟩, ⟨ty, hty, hmem⟩,
                               validate_schema_shape _ hvs⟩
                      · rw [if_neg hmem] at h
                        exact absurd h (by simp)
                  | null => exact absurd h (by simp)
                  | bool b => exact absurd h (by simp)
                  | num n => exact absurd h (by simp)
                  | arr xs => exact absurd h (by simp)
                  | obj kvs2 => exact absurd h (by simp)
      | null => exact absurd h (by simp)
      | bool b => exact absurd h (by simp)
      | str s => exact absurd h (by simp)
      | num n => exact absurd h (by simp)
      | arr xs => exact absurd h (by simp)

set_option maxRecDepth 40000 in
/-- C6 counterexample: schema validation of a PATCH checks only that the
`path` / `action` / `content` keys are present — it does not require
`action` to equal `"write"`.  A response whose single file entry carries
`action:"delete"` is extracted, parsed, and accepted as a validated PATCH,
contradicting the claim that the per-discriminator check requires
`action="write"`. -/
theorem C6_action_value_not_checked_counterexample :
    parse_single_json_object deleteActionText = Except.ok deleteActionObj ∧
    jGet deleteActionObj "files" =
      some (Json.arr [Json.obj [("path", Json.str "a.py"),
                                ("action", Json.str "delete"),
                                ("content", Json.str "x")]]) ∧
    jGet (Json.obj [("path", Json.str "a.py"), ("action", Json.str "delete"),
                    ("content", Json.str "x")]) "action" =
      some (Json.str "delete") :=
  ⟨rfl, rfl, rfl⟩

set_option maxRecDepth 40000 in
/-- C6 amended: extraction proceeds through the stages in sequence (reasoning
block removal, command-delimiter interior, fenced-block interior, then the
first-`\x7b`-to-last-`\x7d` slice) and the result must parse as exactly one
object whose discriminator is in the closed set and whose per-discriminator
required fields are present — for PATCH, `files` is a list of entries that
contain `path`, `action`, and `content` keys (the `action` value itself is
enforced later by patch validation, not here).  The spec's concrete scenario
response yields the validated PATCH object. -/
theorem C6_extraction_pipeline_and_scenario :
    parse_single_json_object scenarioText = Except.ok scenarioObj ∧
    (∀ text, parse_single_json_object text =
      (match pyJsonLoads (String.mk (extractStage text)) with
       | none => Except.error "Invalid JSON"
       | some v =>
          match v with
          | Json.obj _ =>
              (validate_schema v) >>= (fun _ =>
                match jGet v "type" with
                | some (Json.str t) =>
                    if t ∈ ALLOWED_TYPES then Except.ok v
                    else Except.error ("Invalid or missing type: " ++ t)
                | _ => Except.error "Invalid or missing type")
          | _ => Except.error "LLM output must be a JSON object")) ∧
    (∀ text o, parse_single_json_object text = Except.ok o →
      (∃ kvs, o = Json.obj kvs) ∧
      (∃ ty, jGet o "type" = some (Json.str ty) ∧ ty ∈ ALLOWED_TYPES) ∧
      schemaShapeOk o) :=
  ⟨rfl, fun _ => rfl, parse_ok_shape⟩

set_option maxRecDepth 40000 in
/-- Witness for C6's amended theorem at the scenario input. -/
theorem C6_extraction_witness :
    (∃ kvs, scenarioObj = Json.obj kvs) ∧
    (∃ ty, jGet scenarioObj "type" = some (Json.str ty) ∧ ty ∈ ALLOWED_TYPES) ∧
    schemaShapeOk scenarioObj :=
  C6_extraction_pipeline_and_scenario.2.2 scenarioText scenarioObj
    C6_extraction_pipeline_and_scenario.1

theorem step_bounds (env : Env) (o : Orch) (h : boundsOk o) (o2 : Orch)
    (h2 : step env o = StepResult.next o2 ∨ step env o = StepResult.abort o2) :
    boundsOk o2 := by
  obtain ⟨h1, hsp⟩ := h
  simp only [MAX_REPAIRS, MAX_SPEC_REPAIRS] at h1 hsp
  unfold boundsOk
  simp only [MAX_REPAIRS, MAX_SPEC_REPAIRS]
  unfold step at h2
  rcases h2 with h2 | h2 <;>
    · dsimp only at h2
      repeat' split at h2
      all_goals
        first
        | (injection h2 with h3; subst h3;
           first
           | exact ⟨h1, hsp⟩
           | (simp only [saveState, MAX_REPAIRS, MAX_SPEC_REPAIRS] at *; omega))
        | exact absurd h2 (by simp)

theorem runLoop_eq (env : Env) (fuel : Nat) (o : Orch) :
    runLoop env fuel o =
      if o.state = State.DONE ∨ o.state = State.FAILED then
        RunResult.finished o (runEpilogue o)
      else
        match fuel with
        | 0 => RunResult.outOfFuel o
        | fuel + 1 =>
            match step env o with
            | StepResult.abort oa => RunResult.aborted oa
            | StepResult.next o2 => runLoop env fuel o2 := by
  cases fuel <;> rw [runLoop]

theorem runLoop_bounds (env : Env) (fuel : Nat) :
    ∀ o : Orch, boundsOk o → boundsOk (resultOrch (runLoop env fuel o)) := by
  induction fuel with
  | zero =>
      intro o h
      rw [runLoop_eq]
      by_cases hterm : o.state = State.DONE ∨ o.state = State.FAILED
      · rw [if_pos hterm]; exact h
      · rw [if_neg hterm]; exact h
  | succ n ih =>
      intro o h
      rw [runLoop_eq]
      by_cases hterm : o.state = State.DONE ∨ o.state = State.FAILED
      · rw [if_pos hterm]; exact h
      · rw [if_neg hterm]
        dsimp only
        cases hstep : step env o with
        | abort oa => exact step_bounds env o h oa (Or.inr hstep)
        | next o2 => exact ih o2 (step_bounds env o h o2 (Or.inl hstep))

theorem step_spec_repair_at_max (env : Env) (o : Orch)
    (hs : o.state = State.SPEC_REPAIR)
    (hmax : MAX_SPEC_REPAIRS ≤ o.spec_repair_count) :
    ∃ o2, step env o = StepResult.next o2 ∧ o2.state = State.FAILED ∧
      o2.repair_count = o.repair_count ∧
      o2.spec_repair_count = o.spec_repair_count := by
  unfold step
  rw [hs]
  dsimp only
  rw [if_pos hmax]
  exact ⟨_, rfl, rfl, rfl, rfl⟩

theorem step_test_fail_at_max (env : Env) (o : Orch) (rpt : String)
    (hs : o.state = State.TEST)
    (hmax : MAX_REPAIRS ≤ o.repair_count)
    (henv : env.testPhase (o.ctx.iteration_count + 1) = PhaseOut.ok (false, rpt)) :
    ∃ o2, step env o = StepResult.next o2 ∧ o2.state = State.FAILED ∧
      o2.repair_count = o.repair_count ∧
      o2.spec_repair_count = o.spec_repair_count := by
  unfold step
  rw [hs]
  dsimp only
  rw [henv]
  dsimp only
  rw [if_neg (by simp)]
  rw [if_neg (Nat.not_lt.mpr hmax)]
  exact ⟨_, rfl, rfl, rfl, rfl⟩

theorem runLoop_failed_terminal (env : Env) (fuel : Nat) (o : Orch)
    (hs : o.state = State.FAILED) :
    runLoop env fuel o = RunResult.finished o (runEpilogue o) := by
  rw [runLoop_eq]
  rw [if_pos (Or.inr hs)]

/-- C4: across every run, `repair_count` never exceeds `MAX_REPAIRS` and
`spec_repair_count` never exceeds `MAX_SPEC_REPAIRS` (each single step and
the whole bounded run preserve the bounds); when a counter has reached its
maximum, the next evaluation of the corresponding state (SPEC_REPAIR, or
TEST with failing gates) transitions to FAILED with the counters unchanged;
and FAILED is terminal, so the run never returns to a repair state. -/
theorem C4_repair_budgets_bounded :
    (∀ (env : Env) (o : Orch) (o2 : Orch), boundsOk o →
      (step env o = StepResult.next o2 ∨ step env o = StepResult.abort o2) →
      boundsOk o2) ∧
    (∀ (env : Env) (fuel : Nat) (o : Orch), boundsOk o →
      boundsOk (resultOrch (runLoop env fuel o))) ∧
    (∀ (env : Env) (o : Orch), o.state = State.SPEC_REPAIR →
      MAX_SPEC_REPAIRS ≤ o.spec_repair_count →
      ∃ o2, step env o = StepResult.next o2 ∧ o2.state = State.FAILED ∧
        o2.repair_count = o.repair_count ∧
        o2.spec_repair_count = o.spec_repair_count) ∧
    (∀ (env : Env) (o : Orch) (rpt : String), o.state = State.TEST →
      MAX_REPAIRS ≤ o.repair_count →
      env.testPhase (o.ctx.iteration_count + 1) = PhaseOut.ok (false, rpt) →
      ∃ o2, step env o = StepResult.next o2 ∧ o2.state = State.FAILED ∧
        o2.repair_count = o.repair_count ∧
        o2.spec_repair_count = o.spec_repair_count) ∧
    (∀ (env : Env) (fuel : Nat) (o : Orch), o.state = State.FAILED →
      runLoop env fuel o = RunResult.finished o (runEpilogue o)) :=
  ⟨fun env o o2 h h2 => step_bounds env o h o2 h2,
   fun env fuel o h => runLoop_bounds env fuel o h,
   fun env o hs hmax => step_spec_repair_at_max env o hs hmax,
   fun env o rpt hs hmax henv => step_test_fail_at_max env o rpt hs hmax henv,
   fun env fuel o hs => runLoop_failed_terminal env fuel o hs⟩

/-- Witness for C4 at concrete runs: the all-pass run keeps both counters in
bounds; a SPEC_REPAIR state with the spec-repair budget exhausted steps to
FAILED; a TEST state with failing gates and the repair budget exhausted steps
to FAILED. -/
theorem C4_repair_budgets_witness :
    boundsOk (resultOrch (runLoop envGoodFix 10 orchFix)) ∧
    (∃ o2, step envRaiseFix orchSpecRepairMaxFix = StepResult.next o2 ∧
      o2.state = State.FAILED ∧
      o2.repair_count = orchSpecRepairMaxFix.repair_count ∧
      o2.spec_repair_count = orchSpecRepairMaxFix.spec_repair_count) ∧
    (∃ o2, step envTestFailFix orchTestMaxFix = StepResult.next o2 ∧
      o2.state = State.FAILED ∧
      o2.repair_count = orchTestMaxFix.repair_count ∧
      o2.spec_repair_count = orchTestMaxFix.spec_repair_count) :=
  ⟨C4_repair_budgets_bounded.2.1 envGoodFix 10 orchFix ⟨by decide, by decide⟩,
   C4_repair_budgets_bounded.2.2.1 envRaiseFix orchSpecRepairMaxFix rfl
     (by decide),
   C4_repair_budgets_bounded.2.2.2.1 envTestFailFix orchTestMaxFix
     "gates failed" rfl (by decide) rfl⟩

theorem mem_of_getLast?_eq {l : List Json} {a : Json} (h : l.getLast? = some a) :
    a ∈ l := by
  have h2 := List.mem_getLast?_eq_getLast (l := l) (x := a) (by rw [h]; rfl)
  obtain ⟨hne, rfl⟩ := h2
  exact List.getLast_mem hne

theorem step_preserves_wf (env : Env) (o : Orch) (h : WFReports o.ctx)
    (o2 : Orch)
    (h2 : step env o = StepResult.next o2 ∨ step env o = StepResult.abort o2) :
    WFReports o2.ctx := by
  unfold WFReports at h ⊢
  unfold step at h2
  rcases h2 with h2 | h2 <;>
    · dsimp only at h2
      repeat' split at h2
      all_goals
        first
        | (injection h2 with h3; subst h3;
           first
           | exact h
           | (intro r hr; exact h r hr)
           | (intro r hr
              dsimp only [saveState] at hr
              rcases List.mem_append.mp hr with hr | hr
              · exact h r hr
              · rw [List.mem_singleton.mp hr]
                exact ⟨_, rfl⟩))
        | exact absurd h2 (by simp)

theorem runEpilogue_eq_zero_iff (o : Orch) (h : WFReports o.ctx) :
    runEpilogue o = 0 ↔ (o.state = State.DONE ∧ lastReportFlagTrue o.ctx) := by
  unfold runEpilogue
  by_cases hs : o.state = State.DONE ∧ lastReportSuccessTruthy o.ctx
  · rw [if_pos hs]
    simp only [true_iff]
    refine ⟨hs.1, ?_⟩
    have htr := hs.2
    unfold lastReportSuccessTruthy at htr
    unfold lastReportFlagTrue
    cases hlast : o.ctx.test_reports.getLast? with
    | none => rw [hlast] at htr; exact absurd htr (by simp)
    | some r =>
        rw [hlast] at htr
        dsimp only at htr
        obtain ⟨b, hb⟩ := h r (mem_of_getLast?_eq hlast)
        rw [hb] at htr
        simp only [pyTruthyOpt, pyTruthy] at htr
        subst htr
        simp only [Option.some_bind]
        exact hb
  · rw [if_neg hs]
    constructor
    · intro h10
      exact absurd h10 (by decide)
    · rintro ⟨hd, hf⟩
      exfalso
      apply hs
      refine ⟨hd, ?_⟩
      unfold lastReportFlagTrue at hf
      unfold lastReportSuccessTruthy
      cases hlast : o.ctx.test_reports.getLast? with
      | none =>
          rw [hlast] at hf
          exact absurd hf (by simp)
      | some r =>
          rw [hlast] at hf
          simp only [Option.some_bind] at hf
          dsimp only
          rw [hf]
          rfl

theorem runLoop_exit_zero_iff (env : Env) (fuel : Nat) :
    ∀ o : Orch, WFReports o.ctx →
      (exitCode (runLoop env fuel o) = some 0 ↔
        ∃ o2 c, runLoop env fuel o = RunResult.finished o2 c ∧
          o2.state = State.DONE ∧ lastReportFlagTrue o2.ctx) := by
  induction fuel with
  | zero =>
      intro o h
      rw [runLoop_eq]
      by_cases hterm : o.state = State.DONE ∨ o.state = State.FAILED
      · rw [if_pos hterm]
        simp only [exitCode, Option.some_inj]
        constructor
        · intro hz
          exact ⟨o, 0, by rw [hz], ((runEpilogue_eq_zero_iff o h).mp hz).1,
                 ((runEpilogue_eq_zero_iff o h).mp hz).2⟩
        · rintro ⟨o2, c, heq, hd, hf⟩
          injection heq with ho hc
          subst ho
          exact (runEpilogue_eq_zero_iff o h).mpr ⟨hd, hf⟩
      · rw [if_neg hterm]
        dsimp only
        simp [exitCode]
  | succ n ih =>
      intro o h
      rw [runLoop_eq]
      by_cases hterm : o.state = State.DONE ∨ o.state = State.FAILED
      · rw [if_pos hterm]
        simp only [exitCode, Option.some_inj]
        constructor
        · intro hz
          exact ⟨o, 0, by rw [hz], ((runEpilogue_eq_zero_iff o h).mp hz).1,
                 ((runEpilogue_eq_zero_iff o h).mp hz).2⟩
        · rintro ⟨o2, c, heq, hd, hf⟩
          injection heq with ho hc
          subst ho
          exact (runEpilogue_eq_zero_iff o h).mpr ⟨hd, hf⟩
      · rw [if_neg hterm]
        dsimp only
        cases hstep : step env o with
        | abort oa => simp [exitCode]
        | next o2 =>
            exact ih o2 (step_preserves_wf env o h o2 (Or.inl hstep))

/-- C1: for every run whose recorded test reports all carry boolean success
flags (true of a fresh context and preserved by every step), the process exit
status is success (0) iff the loop finished with terminal state DONE and the
last recorded test report's success flag is true; an aborted phase yields
exit status 1, and a finished run in any other condition (terminal FAILED, a
false flag, or no test report at all) also yields 1, since the exit code is
0 or 1 by construction. -/
theorem C1_exit_success_iff_done_and_last_report_true
    (env : Env) (fuel : Nat) (o : Orch) (h : WFReports o.ctx) :
    (exitCode (runLoop env fuel o) = some 0 ↔
      ∃ o2 c, runLoop env fuel o = RunResult.finished o2 c ∧
        o2.state = State.DONE ∧ lastReportFlagTrue o2.ctx) ∧
    (∀ oa, runLoop env fuel o = RunResult.aborted oa →
      exitCode (runLoop env fuel o) = some 1) := by
  refine ⟨runLoop_exit_zero_iff env fuel o h, ?_⟩
  intro oa ha
  rw [ha]
  rfl

/-- Witness for C1 at a concrete all-pass run from a fresh context. -/
theorem C1_exit_success_witness :
    (exitCode (runLoop envGoodFix 10 orchFix) = some 0 ↔
      ∃ o2 c, runLoop envGoodFix 10 orchFix = RunResult.finished o2 c ∧
        o2.state = State.DONE ∧ lastReportFlagTrue o2.ctx) ∧
    (∀ oa, runLoop envGoodFix 10 orchFix = RunResult.aborted oa →
      exitCode (runLoop envGoodFix 10 orchFix) = some 1) :=
  C1_exit_success_iff_done_and_last_report_true envGoodFix 10 orchFix
    (fun r hr => absurd hr (by simp [orchFix]))
